import Mathlib

/-!
Verification model of the `pyutils` file-converter repository.

The Python sources modelled here are:
* `src/file_converter/converters/csv_to_json.py` (`convert_csv_to_json`, `_parse_value`)
* `src/file_converter/converters/json_to_csv.py` (`convert_json_to_csv`)
* `src/file_converter/utils/escape.py` (`escape_characters`, `handle_escape_characters`)

Modelling conventions:
* Python strings are `List Char` (named `Str` below); text literals are written
  with `String.data`.
* Files are modelled by their contents: a CSV file is its list of lines
  (line-terminator conventions are abstracted away; the model covers records
  without embedded newlines), a JSON file is its parsed value or a marker that
  parsing failed.
* Python `float` is modelled as an ideal rational (a normalized fraction)
  together with the special values `inf`/`-inf`/`nan`; its `repr` is the
  shortest plain decimal form (Python switches to scientific notation for
  very large/small magnitudes, which no claim exercises).
* The Unicode-dependent builtins `str.isdigit` / `int` / `float` are modelled
  over a concrete character repertoire: ASCII digits and Arabic-Indic digits
  U+0660..U+0669 are decimal (category Nd) digits, and the superscripts
  U+00B9/U+00B2/U+00B3 carry the digit property without a decimal value
  (so `str.isdigit` accepts them but `int`/`float` reject them).  Characters
  outside this repertoire are treated as non-digits.
* Exceptions are explicit: the body of each converter returns
  `Except Exc _`, and the source's `try`/`except` chain is a total function
  from `Exc` to the surfaced error `PyErr`.
-/

/-- Python strings, modelled as lists of characters. -/
abbrev Str := List Char

namespace PyModel

/-! ## Python `str.replace`

`str.replace` scans left to right and replaces non-overlapping occurrences.
The empty pattern (which Python treats specially) never occurs in the code
modelled here; `pyReplace` returns its input unchanged in that case. -/

/-- Python `s.replace(pat, rep)` for a nonempty pattern `p :: ps`:
left-to-right, non-overlapping. -/
def pyReplaceGo (p : Char) (ps rep : Str) : Str → Str
  | [] => []
  | c :: rest =>
    if (p :: ps).isPrefixOf (c :: rest) then
      rep ++ pyReplaceGo p ps rep (rest.drop ps.length)
    else
      c :: pyReplaceGo p ps rep rest
termination_by l => l.length
decreasing_by
  all_goals simp only [List.length_cons, List.length_drop]
  all_goals omega

/-- Python `s.replace(pat, rep)`. -/
def pyReplace (pat rep s : Str) : Str :=
  match pat with
  | [] => s
  | p :: ps => pyReplaceGo p ps rep s

/-! ## `src/file_converter/utils/escape.py` -/

/-- `escape_characters(input_string, escape_char)` from
`src/file_converter/utils/escape.py`: double the escape character, then
replace newline, tab, comma, pipe and semicolon by the escape character
followed by a mnemonic. -/
def escape_characters (input_string : Str) (escape_char : Char) : Str :=
  let s1 := pyReplace [escape_char] [escape_char, escape_char] input_string
  let s2 := pyReplace ['\n'] [escape_char, 'n'] s1
  let s3 := pyReplace ['\t'] [escape_char, 't'] s2
  let s4 := pyReplace [','] [escape_char, ','] s3
  let s5 := pyReplace ['|'] [escape_char, '|'] s4
  pyReplace [';'] [escape_char, ';'] s5

/-- `handle_escape_characters(input_string, escape_char)` from
`src/file_converter/utils/escape.py`: the doubled escape character first goes
to a NUL placeholder, the escape sequences are expanded, and the placeholder
is restored last. -/
def handle_escape_characters (input_string : Str) (escape_char : Char) : Str :=
  let s1 := pyReplace [escape_char, escape_char] ['\x00'] input_string
  let s2 := pyReplace [escape_char, 'n'] ['\n'] s1
  let s3 := pyReplace [escape_char, 't'] ['\t'] s2
  let s4 := pyReplace [escape_char, ','] [','] s3
  let s5 := pyReplace [escape_char, '|'] ['|'] s4
  let s6 := pyReplace [escape_char, ';'] [';'] s5
  pyReplace ['\x00'] [escape_char] s6

/-! ## Digit classification and numeric parsing

Model of `str.isdigit`, `int()` and `float()` over the repertoire described
in the header comment. -/

/-- Decimal digits (Unicode category Nd) of the modelled repertoire:
ASCII `0`-`9` and Arabic-Indic `٠`-`٩` (U+0660..U+0669). -/
def isNd (c : Char) : Bool :=
  (('0' ≤ c) && (c ≤ '9')) || ((c.toNat ≥ 0x660) && (c.toNat ≤ 0x669))

/-- Decimal value of an Nd digit. -/
def ndVal (c : Char) : Nat :=
  if ('0' ≤ c) && (c ≤ '9') then c.toNat - '0'.toNat else c.toNat - 0x660

/-- Characters with the Unicode digit property in the modelled repertoire:
the Nd digits plus the superscripts `¹`/`²`/`³`, which `str.isdigit`
accepts but `int()` rejects. -/
def isDigitProp (c : Char) : Bool :=
  isNd c || (c.toNat = 0xB9 || (c.toNat = 0xB2 || c.toNat = 0xB3))

/-- Python `s.isdigit()`: nonempty and every character has the digit
property. -/
def pyIsdigit (s : Str) : Bool :=
  (!s.isEmpty) && s.all isDigitProp

/-- Whitespace stripped by Python `str.strip()` (ASCII portion of the
repertoire). -/
def isPyWs (c : Char) : Bool :=
  c = ' ' || c = '\t' || c = '\n' || c = '\r' || c = '\x0b' || c = '\x0c'

/-- Python `s.strip()`. -/
def pyStrip (s : Str) : Str :=
  (s.dropWhile isPyWs).reverse.dropWhile isPyWs |>.reverse

/-- Consume a digit run with PEP 515 underscores (an underscore is consumed
only when squeezed between two digits).  Returns the accumulated value, the
number of digits consumed, and the unconsumed remainder. -/
def digitsVal : Str → Nat → Nat → Nat × Nat × Str
  | [], acc, cnt => (acc, cnt, [])
  | c :: rest, acc, cnt =>
    if isNd c then digitsVal rest (10 * acc + ndVal c) (cnt + 1)
    else if c = '_' && cnt != 0 then
      match rest with
      | d :: rest2 =>
        if isNd d then digitsVal rest2 (10 * acc + ndVal d) (cnt + 1)
        else (acc, cnt, c :: rest)
      | [] => (acc, cnt, [c])
    else (acc, cnt, c :: rest)

/-- The unsigned part of `int()`: a nonempty underscore-grouped run of Nd
digits with nothing left over. -/
def intCore (r : Str) : Option Nat :=
  let t := digitsVal r 0 0
  if t.2.1 > 0 && t.2.2.isEmpty then some t.1 else none

/-- Model of Python `int(s)` on a pre-stripped string: optional sign, then a
nonempty underscore-grouped run of Nd digits with nothing left over. -/
def pyIntParse (s : Str) : Option Int :=
  if s.head? = some '-' then (intCore s.tail).map (fun n => -(n : Int))
  else if s.head? = some '+' then (intCore s.tail).map (fun n => (n : Int))
  else (intCore s).map (fun n => (n : Int))

/-- A normalized fraction: numerator and positive denominator in lowest
terms.  (Plain machine arithmetic on `Int`/`Nat`, so that the kernel can
evaluate the model on concrete inputs.) -/
structure Frac where
  num : Int
  den : Nat
deriving DecidableEq, Repr

/-- Build a normalized fraction from numerator and denominator. -/
def mkFrac (n : Int) (d : Nat) : Frac :=
  let g := Nat.gcd n.natAbs d
  if g = 0 then ⟨0, 0⟩ else ⟨n / (g : Int), d / g⟩

/-- Python floats: ideal rationals plus the IEEE special values. -/
inductive PyFloat where
  | finite (f : Frac)
  | pinf
  | ninf
  | nan
deriving DecidableEq, Repr

/-- Case-insensitive ASCII comparison against a lowercase keyword. -/
def matchKeyword (s : Str) (kw : Str) : Bool :=
  s.map Char.toLower = kw

/-- Model of Python `float(s)` on a pre-stripped string: optional sign, then
`inf`/`infinity`/`nan` (case-insensitive) or a decimal number
`digits [. digits] [(e|E) [sign] digits]` with at least one mantissa digit,
underscores allowed only between digits. -/
def pyFloatParse (s : Str) : Option PyFloat :=
  let signed : Bool × Str :=
    match s with
    | '-' :: r => (true, r)
    | '+' :: r => (false, r)
    | r => (false, r)
  let neg := signed.1
  let body := signed.2
  if matchKeyword body "inf".data || matchKeyword body "infinity".data then
    some (if neg then .ninf else .pinf)
  else if matchKeyword body "nan".data then
    some .nan
  else
    let (ip, ipc, r1) := digitsVal body 0 0
    let fracParsed : Nat × Nat × Str :=
      match r1 with
      | '.' :: r => digitsVal r 0 0
      | r => (0, 0, r)
    let (fp, fpc, r2) := fracParsed
    if ipc + fpc = 0 then none
    else
      let expParsed : Option Int :=
        match r2 with
        | 'e' :: r | 'E' :: r =>
          let signedE : Bool × Str :=
            match r with
            | '-' :: r2 => (true, r2)
            | '+' :: r2 => (false, r2)
            | r2 => (false, r2)
          let (ev, ec, r3) := digitsVal signedE.2 0 0
          if ec > 0 && r3.isEmpty then
            some (if signedE.1 then -(ev : Int) else (ev : Int))
          else none
        | [] => some 0
        | _ => none
      match expParsed with
      | none => none
      | some e =>
        let baseNum : Nat := ip * 10 ^ fpc + fp
        let f : Frac :=
          if e ≥ 0 then mkFrac ((baseNum * 10 ^ e.toNat : Nat) : Int) (10 ^ fpc)
          else mkFrac (baseNum : Int) (10 ^ fpc * 10 ^ e.natAbs)
        some (.finite (if neg then ⟨-f.num, f.den⟩ else f))

/-! ## JSON values and `_parse_value` -/

/-- JSON values as produced by `json.load` (objects keep key order) and as
consumed by `json.dump`. -/
inductive JsonVal where
  | null
  | bool (b : Bool)
  | int (n : ℤ)
  | float (f : PyFloat)
  | str (s : Str)
  | arr (xs : List JsonVal)
  | obj (kvs : List (Str × JsonVal))
deriving Repr

/-- `_parse_value` from `convert_csv_to_json`
(`src/file_converter/converters/csv_to_json.py` lines 69-90): `None` stays
`None`; otherwise strip, keep the empty string, try `int` when the digit
pattern matches (silently swallowing `int`'s `ValueError`), try `float`, and
fall back to the stripped string. -/
def parseValue (vo : Option Str) : JsonVal :=
  match vo with
  | none => .null
  | some v0 =>
    if (pyStrip v0).isEmpty then .str []
    else
      if pyIsdigit (pyStrip v0) ||
          (decide ((pyStrip v0).head? = some '-') && pyIsdigit (pyStrip v0).tail) then
        match pyIntParse (pyStrip v0) with
        | some n => .int n
        | none =>
          match pyFloatParse (pyStrip v0) with
          | some f => .float f
          | none => .str (pyStrip v0)
      else
        match pyFloatParse (pyStrip v0) with
        | some f => .float f
        | none => .str (pyStrip v0)

/-! ## Textual rendering: `str()`, `repr()` and `json.dumps` -/

/-- Decimal rendering of a natural number. -/
def natDec (n : ℕ) : Str := (Nat.repr n).data

/-- Decimal rendering of an integer, matching Python `str(int)`. -/
def intDec (n : ℤ) : Str := (Int.repr n).data

/-- `repr` of a Python float in the ideal-rational model: the shortest plain
decimal form.  The fallback branch is unreachable for values that model real
IEEE doubles (those are dyadic rationals, whose decimal expansion
terminates); it exists only to keep the function total. -/
def floatRepr : PyFloat → Str
  | .pinf => "inf".data
  | .ninf => "-inf".data
  | .nan => "nan".data
  | .finite f =>
    let sgn : Str := if f.num < 0 then "-".data else []
    let n0 : Nat := f.num.natAbs
    match (List.range (f.den + 2)).find? (fun k => 10 ^ k % f.den == 0) with
    | some k =>
      let n : Nat := n0 * (10 ^ k / f.den)
      if k = 0 then sgn ++ natDec n ++ ".0".data
      else
        let ip := n / 10 ^ k
        let fp := n % 10 ^ k
        let fpd := natDec fp
        sgn ++ natDec ip ++ ".".data ++ List.replicate (k - fpd.length) '0' ++ fpd
    | none => sgn ++ natDec n0 ++ "/".data ++ natDec f.den

/-- Python `repr` of a string: single-quoted unless the text contains a
single quote and no double quote; backslashes, quotes and the common control
characters are escaped.  (Non-printable characters beyond these are outside
the modelled repertoire.) -/
def pyReprStr (s : Str) : Str :=
  let q : Char := if s.contains '\'' && !(s.contains '"') then '"' else '\''
  q :: (s.flatMap (fun c =>
    if c = '\\' then ['\\', '\\']
    else if c = '\n' then ['\\', 'n']
    else if c = '\r' then ['\\', 'r']
    else if c = '\t' then ['\\', 't']
    else if c = q then ['\\', q]
    else [c]) ++ [q])

mutual

/-- Python `repr` of a JSON-shaped value (also `str` for containers):
`None`/`True`/`False` capitalised, strings quoted, dict/list with
`", "`/`": "` separators and single-quoted strings. -/
def pyReprVal : JsonVal → Str
  | .null => "None".data
  | .bool true => "True".data
  | .bool false => "False".data
  | .int n => intDec n
  | .float f => floatRepr f
  | .str s => pyReprStr s
  | .arr xs => '[' :: (pyReprList xs ++ [']'])
  | .obj kvs => '\x7b' :: (pyReprObj kvs ++ ['\x7d'])

/-- Comma-separated `repr` of list elements. -/
def pyReprList : List JsonVal → Str
  | [] => []
  | [x] => pyReprVal x
  | x :: y :: rest => pyReprVal x ++ ", ".data ++ pyReprList (y :: rest)

/-- Comma-separated `repr` of dict entries. -/
def pyReprObj : List (Str × JsonVal) → Str
  | [] => []
  | [(k, v)] => pyReprStr k ++ ": ".data ++ pyReprVal v
  | (k, v) :: e :: rest =>
    pyReprStr k ++ ": ".data ++ pyReprVal v ++ ", ".data ++ pyReprObj (e :: rest)

end

/-- JSON string escaping as done by `json.dumps` (basic escapes; the inputs
modelled stay within printable ASCII). -/
def jsonEscStr (s : Str) : Str :=
  '"' :: (s.flatMap (fun c =>
    if c = '"' then ['\\', '"']
    else if c = '\\' then ['\\', '\\']
    else if c = '\n' then ['\\', 'n']
    else if c = '\r' then ['\\', 'r']
    else if c = '\t' then ['\\', 't']
    else [c]) ++ ['"'])

mutual

/-- `json.dumps` with the default separators `", "` and `": "`:
`null`/`true`/`false` lowercase, double-quoted strings, `NaN`/`Infinity`
tokens for the special floats. -/
def jsonDumpVal : JsonVal → Str
  | .null => "null".data
  | .bool true => "true".data
  | .bool false => "false".data
  | .int n => intDec n
  | .float (.finite q) => floatRepr (.finite q)
  | .float .pinf => "Infinity".data
  | .float .ninf => "-Infinity".data
  | .float .nan => "NaN".data
  | .str s => jsonEscStr s
  | .arr xs => '[' :: (jsonDumpList xs ++ [']'])
  | .obj kvs => '\x7b' :: (jsonDumpObj kvs ++ ['\x7d'])

/-- Comma-separated `json.dumps` of array elements. -/
def jsonDumpList : List JsonVal → Str
  | [] => []
  | [x] => jsonDumpVal x
  | x :: y :: rest => jsonDumpVal x ++ ", ".data ++ jsonDumpList (y :: rest)

/-- Comma-separated `json.dumps` of object entries. -/
def jsonDumpObj : List (Str × JsonVal) → Str
  | [] => []
  | [(k, v)] => jsonEscStr k ++ ": ".data ++ jsonDumpVal v
  | (k, v) :: e :: rest =>
    jsonEscStr k ++ ": ".data ++ jsonDumpVal v ++ ", ".data ++ jsonDumpObj (e :: rest)

end

/-- Python `str()` of a JSON-shaped value: identity on strings, `"None"` for
`None`, and `repr` otherwise (for bool/int/float/list/dict `str` and `repr`
agree). -/
def pyStrVal : JsonVal → Str
  | .str s => s
  | v => pyReprVal v

/-- The text the `csv` writer emits for one cell value before quoting:
`None` becomes the empty string, strings pass through, every other value is
rendered with `str()`. -/
def csvCellText : JsonVal → Str
  | .null => []
  | .str s => s
  | v => pyStrVal v

/-! ## The `csv` module: reading and writing one line

The model is line-based, covering records without embedded newlines, with
the `excel` dialect defaults: quote character `"`, `doublequote=True`,
`QUOTE_MINIMAL`.  Under these defaults the writer resolves collisions by
quoting, so a configured `escapechar` only affects the reader. -/

/-- Lexer states of the `csv` reader. -/
inductive LexSt where
  | stStart
  | stField
  | stQuoted
  | stQuoteEnd

/-- The `csv` reader state machine on one line (non-strict mode): an
escape character takes the next character literally (a trailing escape
yields a newline), `"` opens a quoted section at field start, a doubled
quote inside quotes is a literal quote, and text after a closing quote is
taken literally. -/
def csvLexGo (delim : Char) (esc : Option Char) : LexSt → Str → Str → List Str
  | _, acc, [] => [acc]
  | .stStart, acc, c :: rest =>
    if some c = esc then
      match rest with
      | [] => [acc ++ ['\n']]
      | d :: rest2 => csvLexGo delim esc .stField (acc ++ [d]) rest2
    else if c = '"' then csvLexGo delim esc .stQuoted acc rest
    else if c = delim then acc :: csvLexGo delim esc .stStart [] rest
    else csvLexGo delim esc .stField (acc ++ [c]) rest
  | .stField, acc, c :: rest =>
    if some c = esc then
      match rest with
      | [] => [acc ++ ['\n']]
      | d :: rest2 => csvLexGo delim esc .stField (acc ++ [d]) rest2
    else if c = delim then acc :: csvLexGo delim esc .stStart [] rest
    else csvLexGo delim esc .stField (acc ++ [c]) rest
  | .stQuoted, acc, c :: rest =>
    if some c = esc then
      match rest with
      | [] => [acc ++ ['\n']]
      | d :: rest2 => csvLexGo delim esc .stQuoted (acc ++ [d]) rest2
    else if c = '"' then csvLexGo delim esc .stQuoteEnd acc rest
    else csvLexGo delim esc .stQuoted (acc ++ [c]) rest
  | .stQuoteEnd, acc, c :: rest =>
    if c = '"' then csvLexGo delim esc .stQuoted (acc ++ ['"']) rest
    else if c = delim then acc :: csvLexGo delim esc .stStart [] rest
    else csvLexGo delim esc .stField (acc ++ [c]) rest

/-- Fields of one line as the `csv` reader yields them; a blank line yields
the empty record. -/
def csvSplitLine (delim : Char) (esc : Option Char) (l : Str) : List Str :=
  match l with
  | [] => []
  | _ :: _ => csvLexGo delim esc .stStart [] l

/-- Whether the `csv` writer must quote a field under `QUOTE_MINIMAL`. -/
def needsQuote (delim : Char) (f : Str) : Bool :=
  f.any (fun c => c = delim || c = '"' || c = '\r' || c = '\n')

/-- One written field: quoted with internal quotes doubled when needed. -/
def quoteField (delim : Char) (f : Str) : Str :=
  if needsQuote delim f then
    '"' :: (f.flatMap (fun c => if c = '"' then ['"', '"'] else [c]) ++ ['"'])
  else f

/-- Fields joined by the delimiter (Python `delimiter.join(fields)`). -/
def joinCells (delim : Char) : List Str → Str
  | [] => []
  | [x] => x
  | x :: y :: rest => x ++ delim :: joinCells delim (y :: rest)

/-- One written line.  A record consisting of a single empty field is
quoted so it is not read back as a blank line. -/
def csvWriteRow (delim : Char) (cells : List Str) : Str :=
  if cells = [[]] then ['"', '"']
  else joinCells delim (cells.map (quoteField delim))

/-! ## Exceptions and the surfaced error taxonomy -/

/-- Exceptions that can be raised inside the converters' `try` bodies. -/
inductive Exc where
  | valueErr (msg : Str)
  | csvErr (msg : Str)
  | jsonDecodeErr (msg : Str)
  | attrErr (msg : Str)
deriving DecidableEq, Repr

/-- `str(e)` of an in-flight exception. -/
def excMsg : Exc → Str
  | .valueErr m => m
  | .csvErr m => m
  | .jsonDecodeErr m => m
  | .attrErr m => m

/-- Errors surfaced to the caller.  `ValueError` is the spec's Validation
category, `IOError` (`OSError`) its IO category; `FileNotFoundError` cannot
arise in this file-content model. -/
inductive PyErr where
  | valueError (msg : Str)
  | ioError (msg : Str)
deriving DecidableEq, Repr

/-! ## `convert_json_to_csv` (`src/file_converter/converters/json_to_csv.py`) -/

/-- A JSON input file: either its parsed top-level value or a marker that
`json.load` failed with the given message. -/
inductive JsonSrc where
  | malformed (msg : Str)
  | top (v : JsonVal)

/-- Python type name used in `AttributeError` messages. -/
def typeName : JsonVal → Str
  | .null => "NoneType".data
  | .bool _ => "bool".data
  | .int _ => "int".data
  | .float _ => "float".data
  | .str _ => "str".data
  | .arr _ => "list".data
  | .obj _ => "dict".data

/-- `item.keys()`: the key list of an object; any other value raises
`AttributeError`. -/
def keysOf (v : JsonVal) : Except Exc (List Str) :=
  match v with
  | .obj kvs => .ok (kvs.map Prod.fst)
  | v => .error (.attrErr (['\''] ++ typeName v ++ "' object has no attribute 'keys'".data))

/-- `set(a) == set(b)` on key lists. -/
def keySetEq (a b : List Str) : Bool :=
  a.all (fun k => decide (k ∈ b)) && b.all (fun k => decide (k ∈ a))

/-- The validation loop of `convert_json_to_csv` (lines 91-94): every
element after the first must have exactly the canonical key set. -/
def checkItems (fieldnames : List Str) : List JsonVal → Except Exc Unit
  | [] => .ok ()
  | item :: rest => do
    let ks ← keysOf item
    if keySetEq ks fieldnames then checkItems fieldnames rest
    else .error (.valueErr "All objects in JSON array must have the same fields".data)

/-- `csv.DictWriter._dict_to_list`: reject keys outside `fieldnames`, then
read the values in `fieldnames` order, with the default `restval` `""` for
missing keys. -/
def dictToList (fieldnames : List Str) (kvs : List (Str × JsonVal)) :
    Except Exc (List JsonVal) :=
  if kvs.all (fun kv => decide (kv.1 ∈ fieldnames)) then
    .ok (fieldnames.map (fun k => (kvs.lookup k).getD (.str [])))
  else .error (.valueErr "dict contains fields not in fieldnames".data)

/-- One data line written by `DictWriter.writerow`.  Non-object rows would
raise `AttributeError`; after validation only objects reach this point. -/
def writeRecord (delim : Char) (fieldnames : List Str) (item : JsonVal) :
    Except Exc Str :=
  match item with
  | .obj kvs => do
    let vals ← dictToList fieldnames kvs
    pure (csvWriteRow delim (vals.map csvCellText))
  | v => .error (.attrErr (['\''] ++ typeName v ++ "' object has no attribute 'keys'".data))

/-- The `try` body of `convert_json_to_csv` (lines 72-104): single objects
are wrapped; other non-list values are rejected; an empty dataset writes a
zero-byte file (no lines); otherwise the first record fixes the field set,
the remaining records are validated, and the header line plus one line per
record are written.  The configured escape character only matters to the
writer under `QUOTE_NONE`, which this code never selects. -/
def jsonToCsvBody (src : JsonSrc) (delim : Char) (_esc : Option Char) :
    Except Exc (List Str) :=
  match src with
  | .malformed m => .error (.jsonDecodeErr m)
  | .top v => do
    let data ← (match v with
      | .obj kvs => .ok [JsonVal.obj kvs]
      | .arr xs => .ok xs
      | _ => .error (.valueErr "JSON must contain an object or array of objects".data) :
        Except Exc (List JsonVal))
    match data with
    | [] => pure []
    | first :: rest => do
      let fieldnames ← keysOf first
      checkItems fieldnames rest
      let rows ← (first :: rest).mapM (writeRecord delim fieldnames)
      pure (csvWriteRow delim fieldnames :: rows)

/-- The `except` chain of `convert_json_to_csv` (lines 106-111):
`json.JSONDecodeError` becomes a `ValueError`, every other exception —
including the function's own validation `ValueError`s — is re-raised as
`IOError`. -/
def jsonToCsvHandler : Exc → PyErr
  | .jsonDecodeErr m => .valueError ("Invalid JSON format: ".data ++ m)
  | e => .ioError ("Error converting JSON to CSV: ".data ++ excMsg e)

/-- `convert_json_to_csv`, returning the written CSV lines or the surfaced
error. -/
def convert_json_to_csv (src : JsonSrc) (delim : Char) (esc : Option Char) :
    Except PyErr (List Str) :=
  (jsonToCsvBody src delim esc).mapError jsonToCsvHandler

/-! ## `convert_csv_to_json` (`src/file_converter/converters/csv_to_json.py`) -/

/-- A value stored in a `DictReader` row dict: an ordinary cell (possibly
the `restval` `None`) or the list of extra cells under the `restkey`. -/
inductive DVal where
  | cell (v : Option Str)
  | extras (vs : List Str)
deriving DecidableEq, Repr

/-- Python dict insertion on an ordered association list: updating an
existing key keeps its position, a new key goes to the end. -/
def dictInsert {α β : Type} [DecidableEq α] (d : List (α × β)) (k : α) (v : β) :
    List (α × β) :=
  if d.any (fun kv => decide (kv.1 = k)) then
    d.map (fun kv => if kv.1 = k then (k, v) else kv)
  else d ++ [(k, v)]

/-- `csv.DictReader.__next__`: zip the header with the row, collect surplus
cells under the `restkey` `None`, and pad missing cells with the `restval`
`None`. -/
def buildDict (hdr row : List Str) : List (Option Str × DVal) :=
  let base := (List.zip hdr row).foldl
    (fun d kv => dictInsert d (some kv.1) (.cell (some kv.2))) []
  if row.length > hdr.length then
    dictInsert base none (.extras (row.drop hdr.length))
  else if hdr.length > row.length then
    (hdr.drop row.length).foldl (fun d k => dictInsert d (some k) (.cell none)) base
  else base

/-- The dict comprehension `{k: _parse_value(v) for k, v in row.items()}`:
`_parse_value` called on the `restkey`'s list of extras raises
`AttributeError` (`v.strip()` on a list).  The `restkey` `None` only ever
holds such a list, so the key default in the first branch is unreachable. -/
def parseDictEntries : List (Option Str × DVal) → Except Exc (List (Str × JsonVal))
  | [] => .ok []
  | (k, .cell c) :: rest => do
    let restP ← parseDictEntries rest
    .ok ((k.getD [], parseValue c) :: restP)
  | (_, .extras _) :: _ =>
    .error (.attrErr "'list' object has no attribute 'strip'".data)

/-- Reading one line from the `csv` reader; a NUL byte anywhere raises
`csv.Error`. -/
def csvReadLine (delim : Char) (esc : Option Char) (l : Str) : Except Exc (List Str) :=
  if l.any (fun c => c = '\x00') then .error (.csvErr "line contains NUL".data)
  else .ok (csvSplitLine delim esc l)

/-- One iteration of the row loop of `convert_csv_to_json`: read the next
row, skip it when blank, otherwise build its dict and parse every value. -/
def csvRowStep (hdr : List Str) (delim : Char) (esc : Option Char)
    (acc : List (List (Str × JsonVal))) (line : Str) :
    Except Exc (List (List (Str × JsonVal))) := do
  let row ← csvReadLine delim esc line
  if row.isEmpty then pure acc
  else do
    let r ← parseDictEntries (buildDict hdr row)
    pure (acc ++ [r])

/-- The `try` body of `convert_csv_to_json` (lines 92-106): the first row is
the header (`None`/empty → `ValueError`), blank rows are skipped by
`DictReader`, every other row becomes a dict whose values run through
`_parse_value`. -/
def csvToJsonBody (lines : List Str) (delim : Char) (esc : Option Char) :
    Except Exc (List (List (Str × JsonVal))) :=
  match lines with
  | [] => .error (.valueErr "CSV file has no headers".data)
  | l0 :: rest => do
    let hdr ← csvReadLine delim esc l0
    if hdr.isEmpty then .error (.valueErr "CSV file has no headers".data)
    else
      rest.foldlM (csvRowStep hdr delim esc) []

/-- The `except` chain of `convert_csv_to_json` (lines 111-116):
`csv.Error` becomes a `ValueError`, every other exception — including the
function's own "no headers" `ValueError` — is re-raised as `IOError`. -/
def csvToJsonHandler : Exc → PyErr
  | .csvErr m => .valueError ("Invalid CSV format: ".data ++ m)
  | e => .ioError ("Error converting CSV to JSON: ".data ++ excMsg e)

/-- `convert_csv_to_json`, returning the dataset that `json.dump` writes
(`json.dump data (indent 4)`; the empty dataset is the text `[]`) or the
surfaced error. -/
def convert_csv_to_json (lines : List Str) (delim : Char) (esc : Option Char) :
    Except PyErr (List (List (Str × JsonVal))) :=
  (csvToJsonBody lines delim esc).mapError csvToJsonHandler

/-- The JSON value `json.load` hands back from the file `convert_csv_to_json`
wrote: an array of objects. -/
def datasetToJson (ds : List (List (Str × JsonVal))) : JsonVal :=
  .arr (ds.map .obj)

/-! ## File-system event traces

Both converters open their input first; the output file is opened inside
the `try` body only on the control paths that reach a `with open(..., 'w')`
statement.  The traces below record those opens in source order. -/

/-- File-system events. -/
inductive Ev where
  | openInput
  | openOutput
  | writeOutput
deriving DecidableEq, Repr

/-- Events of one `convert_csv_to_json` call: the output is opened only
after the whole input has been read, parsed and validated. -/
def csvToJsonEvents (lines : List Str) (delim : Char) (esc : Option Char) : List Ev :=
  .openInput ::
    (match csvToJsonBody lines delim esc with
     | .error _ => []
     | .ok _ => [.openOutput, .writeOutput])

/-- Events of one `convert_json_to_csv` call: both `with open(csv_file, 'w')`
statements (the empty-dataset one and the main one) lie beyond every
validation raise. -/
def jsonToCsvEvents (src : JsonSrc) (delim : Char) (esc : Option Char) : List Ev :=
  .openInput ::
    (match jsonToCsvBody src delim esc with
     | .error _ => []
     | .ok _ => [.openOutput, .writeOutput])

/-! ## Claim-side definitions

The definitions in this section follow the wording of individual spec
claims; they exist to be compared against the source-side definitions
above. -/

/-- The integer token of the spec's coercion rule: an optional leading
minus sign followed only by (one or more) decimal digits. -/
def intTokenNd (t : Str) : Bool :=
  if t.head? = some '-' then (!t.tail.isEmpty) && t.tail.all isNd
  else (!t.isEmpty) && t.all isNd

/-- Value of a run of decimal digits. -/
def ndListVal (r : Str) : Nat :=
  r.foldl (fun a c => 10 * a + ndVal c) 0

/-- Value of the spec's integer token. -/
def intTokenVal (t : Str) : Int :=
  if t.head? = some '-' then -(ndListVal t.tail : Int) else (ndListVal t : Int)

/-- Modelled from the claim's wording (value coercion): trim whitespace;
a blank cell is the empty string; an optional leading minus sign followed
only by decimal digits parses as an integer; otherwise parse as a float
when the float parser accepts; otherwise return the trimmed string. -/
def coercionClaim (s : Str) : JsonVal :=
  if (pyStrip s).isEmpty then .str []
  else if intTokenNd (pyStrip s) then .int (intTokenVal (pyStrip s))
  else
    match pyFloatParse (pyStrip s) with
    | some f => .float f
    | none => .str (pyStrip s)

/-- Whether a value is a string, an integer or a float. -/
def isScalarSIF : JsonVal → Bool
  | .str _ => true
  | .int _ => true
  | .float _ => true
  | _ => false

/-- A cell text that passes untouched through the `csv` layer for the given
delimiter (with the reader's default escape character `\`): none of its
characters is the delimiter, a quote, a backslash, a carriage return, a
newline or a NUL. -/
def plainCell (delim : Char) (c : Str) : Prop :=
  ∀ ch ∈ c, ch ≠ delim ∧ ch ≠ '"' ∧ ch ≠ '\\' ∧ ch ≠ '\r' ∧ ch ≠ '\n' ∧ ch ≠ '\x00'

/-- A cell text that the coerce-then-render pipeline reproduces exactly. -/
def canonicalCell (c : Str) : Prop :=
  csvCellText (parseValue (some c)) = c

/-- The record `convert_csv_to_json` builds from one well-formed row. -/
def rowRecord (hdr r : List Str) : List (Str × JsonVal) :=
  (List.zip hdr r).map (fun kv => (kv.1, parseValue (some kv.2)))

/-- The per-character encoding underlying `escape_characters`. -/
def encB (e : Char) (c : Char) : Str :=
  if c = e then [e, e]
  else if c = '\n' then [e, 'n']
  else if c = '\t' then [e, 't']
  else if c = ',' then [e, ',']
  else if c = '|' then [e, '|']
  else if c = ';' then [e, ';']
  else [c]

/-- Per-character view of the intermediate strings of `escape_characters`:
`escStage k` describes the text after the first `k` replacement passes. -/
def escStage (k : Nat) (e : Char) (c : Char) : Str :=
  if c = e then [e, e]
  else if c = '\n' ∧ 1 ≤ k then [e, 'n']
  else if c = '\t' ∧ 2 ≤ k then [e, 't']
  else if c = ',' ∧ 3 ≤ k then [e, ',']
  else if c = '|' ∧ 4 ≤ k then [e, '|']
  else if c = ';' ∧ 5 ≤ k then [e, ';']
  else [c]

/-- Per-character view of the intermediate strings of
`handle_escape_characters` applied to an escaped text: `unStage k`
describes the text after the first `k` replacement passes (pass 1 sends the
doubled escape character to the NUL placeholder, passes 2-6 expand the five
mnemonics). -/
def unStage (k : Nat) (e : Char) (c : Char) : Str :=
  if c = e then ['\x00']
  else if c = '\n' then (if 2 ≤ k then ['\n'] else [e, 'n'])
  else if c = '\t' then (if 3 ≤ k then ['\t'] else [e, 't'])
  else if c = ',' then (if 4 ≤ k then [','] else [e, ','])
  else if c = '|' then (if 5 ≤ k then ['|'] else [e, '|'])
  else if c = ';' then (if 6 ≤ k then [';'] else [e, ';'])
  else [c]

/-! ## Lemmas about digit runs and `_parse_value` -/

theorem digitProp_not_special {c : Char} (h : isDigitProp c = true) :
    c ≠ '_' ∧ c ≠ '-' ∧ c ≠ '+' := by
  refine ⟨?_, ?_, ?_⟩ <;> rintro rfl <;> revert h <;> decide

theorem isNd_digitProp {c : Char} (h : isNd c = true) : isDigitProp c = true := by
  simp [isDigitProp, h]

theorem digitsVal_cons_nd {c : Char} (r : Str) (acc cnt : Nat)
    (hc : isNd c = true) :
    digitsVal (c :: r) acc cnt = digitsVal r (10 * acc + ndVal c) (cnt + 1) := by
  conv_lhs => rw [digitsVal.eq_def]
  simp [hc]

theorem digitsVal_cons_stop {c : Char} (r : Str) (acc cnt : Nat)
    (hc : isNd c = false) (hcu : c ≠ '_') :
    digitsVal (c :: r) acc cnt = (acc, cnt, c :: r) := by
  conv_lhs => rw [digitsVal.eq_def]
  simp [hc, hcu]

theorem digitsVal_all_nd :
    ∀ (r : Str) (acc cnt : Nat), r.all isNd = true →
      digitsVal r acc cnt =
        (r.foldl (fun a c => 10 * a + ndVal c) acc, cnt + r.length, []) := by
  intro r
  induction r with
  | nil => intro acc cnt _; rfl
  | cons c r ih =>
    intro acc cnt h
    simp only [List.all_cons, Bool.and_eq_true] at h
    rw [digitsVal_cons_nd r acc cnt h.1, ih _ _ h.2]
    simp only [List.foldl_cons, List.length_cons]
    have hcnt : cnt + 1 + r.length = cnt + (r.length + 1) := by omega
    rw [hcnt]

theorem digitsVal_stuck :
    ∀ (r : Str) (acc cnt : Nat), (∀ c ∈ r, c ≠ '_') → ¬ (r.all isNd = true) →
      ((digitsVal r acc cnt).2.2).isEmpty = false := by
  intro r
  induction r with
  | nil => intro acc cnt _ h; exact absurd rfl h
  | cons c r ih =>
    intro acc cnt hu h
    by_cases hc : isNd c = true
    · rw [digitsVal_cons_nd r acc cnt hc]
      refine ih _ _ (fun x hx => hu x (List.mem_cons_of_mem _ hx)) ?_
      intro hr
      exact h (by simp [List.all_cons, hc, hr])
    · have hcu : c ≠ '_' := hu c (List.mem_cons_self _ _)
      rw [digitsVal_cons_stop r acc cnt (by simpa using hc) hcu]
      rfl

theorem intCore_all_nd {r : Str} (hne : r ≠ []) (h : r.all isNd = true) :
    intCore r = some (ndListVal r) := by
  unfold intCore
  rw [digitsVal_all_nd r 0 0 h]
  have : r.length > 0 := List.length_pos.mpr hne
  simp [ndListVal, this]

theorem intCore_stuck {r : Str} (hd : ∀ c ∈ r, isDigitProp c = true)
    (h : ¬ (r.all isNd = true)) : intCore r = none := by
  unfold intCore
  have := digitsVal_stuck r 0 0 (fun c hc => (digitProp_not_special (hd c hc)).1) h
  simp [this]

theorem all_nd_all_digitProp {r : Str} (h : r.all isNd = true) :
    r.all isDigitProp = true := by
  rw [List.all_eq_true] at h ⊢
  exact fun c hc => isNd_digitProp (h c hc)

/-- The head of an all-digit-property string is neither a sign nor an
underscore. -/
theorem head_digitProp {c : Char} {r : Str} (h : (c :: r).all isDigitProp = true) :
    (c :: r).head? ≠ some '-' ∧ (c :: r).head? ≠ some '+' := by
  simp only [List.all_cons, Bool.and_eq_true] at h
  have := digitProp_not_special h.1
  constructor <;> simp [this.2.1, this.2.2]

theorem isEmpty_false_ne_nil {l : Str} (h : l.isEmpty = false) : l ≠ [] := by
  intro he
  rw [he] at h
  exact absurd h (by simp)

/-- `_parse_value` implements exactly the coercion rule stated by the spec:
the source gates the integer attempt on `str.isdigit` (which also accepts
non-decimal digit characters) and swallows the resulting `ValueError`, and
that combination coincides with "optional minus then decimal digits". -/
theorem parseValue_eq_coercionClaim (s : Str) :
    parseValue (some s) = coercionClaim s := by
  unfold parseValue coercionClaim
  by_cases h0 : (pyStrip s).isEmpty = true
  · simp [h0]
  · simp only [h0, Bool.false_eq_true, if_false]
    have hne : pyStrip s ≠ [] := by
      intro he
      rw [he] at h0
      exact h0 rfl
    by_cases hI : intTokenNd (pyStrip s) = true
    · by_cases hm : (pyStrip s).head? = some '-'
      · have hI2 := hI
        rw [intTokenNd, if_pos hm] at hI2
        simp only [Bool.and_eq_true, Bool.not_eq_true'] at hI2
        have htne : (pyStrip s).tail ≠ [] := isEmpty_false_ne_nil hI2.1
        have htd : pyIsdigit (pyStrip s).tail = true := by
          rw [pyIsdigit]
          simp [hI2.1, all_nd_all_digitProp hI2.2]
        have hgate : (pyIsdigit (pyStrip s) ||
            (decide ((pyStrip s).head? = some '-') && pyIsdigit (pyStrip s).tail)) = true := by
          simp [hm, htd]
        rw [if_pos hgate, if_pos hI, pyIntParse, if_pos hm, intCore_all_nd htne hI2.2]
        rw [intTokenVal, if_pos hm]
        rfl
      · have hI2 := hI
        rw [intTokenNd, if_neg hm] at hI2
        simp only [Bool.and_eq_true, Bool.not_eq_true'] at hI2
        have hd : pyIsdigit (pyStrip s) = true := by
          rw [pyIsdigit]
          simp [hI2.1, all_nd_all_digitProp hI2.2]
        have hp : (pyStrip s).head? ≠ some '+' := by
          cases hps : pyStrip s with
          | nil => exact absurd hps hne
          | cons c r =>
            rw [hps] at hI2
            have hc : isNd c = true := by
              have := hI2.2
              simp only [List.all_cons, Bool.and_eq_true] at this
              exact this.1
            have := digitProp_not_special (isNd_digitProp hc)
            simp [this.2.2]
        have hgate : (pyIsdigit (pyStrip s) ||
            (decide ((pyStrip s).head? = some '-') && pyIsdigit (pyStrip s).tail)) = true := by
          simp [hd]
        rw [if_pos hgate, if_pos hI, pyIntParse, if_neg hm, if_neg hp,
          intCore_all_nd hne hI2.2]
        rw [intTokenVal, if_neg hm]
        rfl
    · by_cases hg : (pyIsdigit (pyStrip s) ||
          (decide ((pyStrip s).head? = some '-') && pyIsdigit (pyStrip s).tail)) = true
      · rw [if_pos hg, if_neg hI]
        rcases Bool.or_eq_true _ _ |>.mp hg with hd | hmt
        · -- every character has the digit property, but they are not all
          -- decimal digits, so `int()` rejects the token
          have hm : (pyStrip s).head? ≠ some '-' := by
            cases hps : pyStrip s with
            | nil => exact absurd hps hne
            | cons c r =>
              rw [hps] at hd
              rw [pyIsdigit] at hd
              simp only [Bool.and_eq_true] at hd
              exact (head_digitProp hd.2).1
          have hp : (pyStrip s).head? ≠ some '+' := by
            cases hps : pyStrip s with
            | nil => exact absurd hps hne
            | cons c r =>
              rw [hps] at hd
              rw [pyIsdigit] at hd
              simp only [Bool.and_eq_true] at hd
              exact (head_digitProp hd.2).2
          have hnotnd : ¬ ((pyStrip s).all isNd = true) := by
            intro hall
            rw [intTokenNd, if_neg hm] at hI
            apply hI
            simp only [Bool.and_eq_true, Bool.not_eq_true']
            exact ⟨by simpa using h0, hall⟩
          have hdall : ∀ c ∈ pyStrip s, isDigitProp c = true := by
            rw [pyIsdigit] at hd
            simp only [Bool.and_eq_true, List.all_eq_true] at hd
            exact hd.2
          rw [pyIntParse, if_neg hm, if_neg hp, intCore_stuck hdall hnotnd]
          rfl
        · simp only [Bool.and_eq_true, decide_eq_true_eq] at hmt
          have hm := hmt.1
          have htd := hmt.2
          have htne : (pyStrip s).tail ≠ [] := by
            rw [pyIsdigit] at htd
            simp only [Bool.and_eq_true, Bool.not_eq_true'] at htd
            exact isEmpty_false_ne_nil htd.1
          have hnotnd : ¬ ((pyStrip s).tail.all isNd = true) := by
            intro hall
            rw [intTokenNd, if_pos hm] at hI
            apply hI
            simp only [Bool.and_eq_true, Bool.not_eq_true']
            refine ⟨?_, hall⟩
            cases hps : (pyStrip s).tail with
            | nil => exact absurd hps htne
            | cons c r => rfl
          have hdall : ∀ c ∈ (pyStrip s).tail, isDigitProp c = true := by
            rw [pyIsdigit] at htd
            simp only [Bool.and_eq_true, List.all_eq_true] at htd
            exact htd.2
          rw [pyIntParse, if_pos hm, intCore_stuck hdall hnotnd]
          rfl
      · rw [if_neg hg, if_neg hI]

theorem parseValue_scalar (s : Str) : isScalarSIF (parseValue (some s)) = true := by
  rw [parseValue_eq_coercionClaim s]
  unfold coercionClaim
  split
  · rfl
  · split
    · rfl
    · split
      · rfl
      · rfl

/-! ## Lemmas about `str.replace` and the escape helpers -/

theorem pyReplaceGo_nil (p : Char) (ps rep : Str) : pyReplaceGo p ps rep [] = [] := by
  rw [pyReplaceGo]

theorem pyReplace_one (p : Char) (rep l : Str) :
    pyReplace [p] rep l = pyReplaceGo p [] rep l := rfl

theorem pyReplace_two (p1 p2 : Char) (rep l : Str) :
    pyReplace [p1, p2] rep l = pyReplaceGo p1 [p2] rep l := rfl

theorem go1_match (p : Char) (rep t : Str) :
    pyReplaceGo p [] rep (p :: t) = rep ++ pyReplaceGo p [] rep t := by
  conv_lhs => rw [pyReplaceGo.eq_def]
  simp [List.isPrefixOf]

theorem go1_skip {c p : Char} (rep t : Str) (h : c ≠ p) :
    pyReplaceGo p [] rep (c :: t) = c :: pyReplaceGo p [] rep t := by
  conv_lhs => rw [pyReplaceGo.eq_def]
  simp [List.isPrefixOf, Ne.symm h]

theorem go2_match (p1 p2 : Char) (rep t : Str) :
    pyReplaceGo p1 [p2] rep (p1 :: p2 :: t) = rep ++ pyReplaceGo p1 [p2] rep t := by
  conv_lhs => rw [pyReplaceGo.eq_def]
  simp [List.isPrefixOf]

theorem go2_skip {c p1 : Char} (p2 : Char) (rep t : Str) (h : c ≠ p1) :
    pyReplaceGo p1 [p2] rep (c :: t) = c :: pyReplaceGo p1 [p2] rep t := by
  conv_lhs => rw [pyReplaceGo.eq_def]
  simp [List.isPrefixOf, Ne.symm h]

theorem go2_singleton (p1 p2 : Char) (rep : Str) (c : Char) :
    pyReplaceGo p1 [p2] rep [c] = [c] := by
  conv_lhs => rw [pyReplaceGo.eq_def]
  simp [List.isPrefixOf, pyReplaceGo_nil]

theorem go2_block {a b p1 p2 : Char} (rep t : Str)
    (hn : ¬(a = p1 ∧ b = p2)) (hb : b ≠ p1) :
    pyReplaceGo p1 [p2] rep (a :: b :: t) = a :: b :: pyReplaceGo p1 [p2] rep t := by
  by_cases ha : a = p1
  · have hb2 : b ≠ p2 := fun h2 => hn ⟨ha, h2⟩
    have hpre : ([p1, p2].isPrefixOf (a :: b :: t)) = false := by
      simp [List.isPrefixOf, Ne.symm hb2]
    conv_lhs => rw [pyReplaceGo.eq_def]
    dsimp only
    rw [hpre]
    simp only [Bool.false_eq_true, if_false]
    rw [go2_skip p2 rep t hb]
  · rw [go2_skip p2 rep (b :: t) ha, go2_skip p2 rep t hb]

theorem go1_nomem {p : Char} (rep : Str) :
    ∀ {l : Str} (t : Str), p ∉ l →
      pyReplaceGo p [] rep (l ++ t) = l ++ pyReplaceGo p [] rep t := by
  intro l
  induction l with
  | nil => intro t _; rfl
  | cons c l ih =>
    intro t hp
    have hc : c ≠ p := fun h => hp (h ▸ List.mem_cons_self _ _)
    rw [List.cons_append, go1_skip rep _ hc, ih t (fun h => hp (List.mem_cons_of_mem _ h))]
    rfl

/-- Replacing a single-character pattern in a concatenation of per-character
blocks: each block is either exactly the pattern (and becomes the
replacement) or avoids the pattern character (and is kept). -/
theorem replace_one_blocks (p : Char) (rep : Str) (f g : Char → Str) :
    ∀ (s : Str), (∀ c ∈ s, (f c = [p] ∧ g c = rep) ∨ (g c = f c ∧ p ∉ f c)) →
      pyReplace [p] rep (s.flatMap f) = s.flatMap g := by
  intro s
  induction s with
  | nil => intro _; exact pyReplaceGo_nil _ _ _
  | cons c s ih =>
    intro H
    have ihs : pyReplaceGo p [] rep (s.flatMap f) = s.flatMap g :=
      ih (fun x hx => H x (List.mem_cons_of_mem _ hx))
    rcases H c (List.mem_cons_self _ _) with ⟨hf, hg⟩ | ⟨hg, hp⟩
    · rw [List.flatMap_cons, hf, List.flatMap_cons, hg]
      show pyReplaceGo p [] rep (p :: s.flatMap f) = rep ++ s.flatMap g
      rw [go1_match, ihs]
    · rw [List.flatMap_cons, List.flatMap_cons, hg]
      show pyReplaceGo p [] rep (f c ++ s.flatMap f) = f c ++ s.flatMap g
      rw [go1_nomem rep _ hp, ihs]

/-- Replacing a two-character pattern in a concatenation of blocks of length
one or two: each block is exactly the pattern, or a single character other
than the pattern head, or a two-character block that neither matches the
pattern nor ends in the pattern head (so no match can straddle a block
boundary). -/
theorem replace_two_blocks (p1 p2 : Char) (rep : Str) (f g : Char → Str) :
    ∀ (s : Str),
      (∀ c ∈ s, (f c = [p1, p2] ∧ g c = rep) ∨
        (g c = f c ∧ ((∃ a, f c = [a] ∧ a ≠ p1) ∨
          ∃ a b, f c = [a, b] ∧ ¬(a = p1 ∧ b = p2) ∧ b ≠ p1))) →
      pyReplace [p1, p2] rep (s.flatMap f) = s.flatMap g := by
  intro s
  induction s with
  | nil => intro _; exact pyReplaceGo_nil _ _ _
  | cons c s ih =>
    intro H
    have ihs : pyReplaceGo p1 [p2] rep (s.flatMap f) = s.flatMap g :=
      ih (fun x hx => H x (List.mem_cons_of_mem _ hx))
    rcases H c (List.mem_cons_self _ _) with ⟨hf, hg⟩ |
      ⟨hg, ⟨a, hfa, hap⟩ | ⟨a, b, hfab, hnab, hbp⟩⟩
    · rw [List.flatMap_cons, hf, List.flatMap_cons, hg]
      show pyReplaceGo p1 [p2] rep (p1 :: p2 :: s.flatMap f) = rep ++ s.flatMap g
      rw [go2_match, ihs]
    · rw [List.flatMap_cons, hfa, List.flatMap_cons, hg, hfa]
      show pyReplaceGo p1 [p2] rep (a :: s.flatMap f) = a :: s.flatMap g
      rw [go2_skip p2 rep _ hap, ihs]
    · rw [List.flatMap_cons, hfab, List.flatMap_cons, hg, hfab]
      show pyReplaceGo p1 [p2] rep (a :: b :: s.flatMap f) = a :: b :: s.flatMap g
      rw [go2_block rep _ hnab hbp, ihs]

theorem flatMap_id_chars : ∀ (s : Str), s.flatMap (fun c => [c]) = s := by
  intro s
  induction s with
  | nil => rfl
  | cons c s ih => rw [List.flatMap_cons, ih]; rfl

theorem mem_escStage {x e c : Char} {k : Nat} (h : x ∈ escStage k e c) :
    x = e ∨ x = c ∨ x = 'n' ∨ x = 't' := by
  unfold escStage at h
  split_ifs at h with hc h1 h2 h3 h4 h5
  all_goals simp_all
  all_goals tauto

theorem escape_characters_blocks (e : Char) (s : Str)
    (hn : e ≠ '\n') (ht : e ≠ '\t') (hcm : e ≠ ',') (hpp : e ≠ '|') (hsc : e ≠ ';') :
    escape_characters s e = s.flatMap (escStage 5 e) := by
  unfold escape_characters
  dsimp only
  have e1 : pyReplace [e] [e, e] s = s.flatMap (escStage 0 e) := by
    conv_lhs => rw [← flatMap_id_chars s]
    refine replace_one_blocks e [e, e] _ _ s ?_
    intro c _
    by_cases hc : c = e
    · exact Or.inl ⟨by rw [hc], by simp [escStage, hc]⟩
    · refine Or.inr ⟨by simp [escStage, hc], by simp [Ne.symm hc]⟩
  rw [e1]
  have e2 : pyReplace ['\n'] [e, 'n'] (s.flatMap (escStage 0 e)) =
      s.flatMap (escStage 1 e) := by
    refine replace_one_blocks _ _ _ _ s ?_
    intro c _
    by_cases hcn : c = '\n'
    · refine Or.inl ⟨by simp [escStage, hcn, Ne.symm hn], by simp [escStage, hcn, Ne.symm hn]⟩
    · refine Or.inr ⟨by simp [escStage, hcn], ?_⟩
      intro hmem
      rcases mem_escStage hmem with h | h | h | h
      · exact hn h.symm
      · exact hcn h.symm
      · exact absurd h (by decide)
      · exact absurd h (by decide)
  rw [e2]
  have e3 : pyReplace ['\t'] [e, 't'] (s.flatMap (escStage 1 e)) =
      s.flatMap (escStage 2 e) := by
    refine replace_one_blocks _ _ _ _ s ?_
    intro c _
    by_cases hct : c = '\t'
    · refine Or.inl ⟨by simp [escStage, hct, Ne.symm ht], by simp [escStage, hct, Ne.symm ht]⟩
    · refine Or.inr ⟨by simp [escStage, hct], ?_⟩
      intro hmem
      rcases mem_escStage hmem with h | h | h | h
      · exact ht h.symm
      · exact hct h.symm
      · exact absurd h (by decide)
      · exact absurd h (by decide)
  rw [e3]
  have e4 : pyReplace [','] [e, ','] (s.flatMap (escStage 2 e)) =
      s.flatMap (escStage 3 e) := by
    refine replace_one_blocks _ _ _ _ s ?_
    intro c _
    by_cases hcc : c = ','
    · refine Or.inl ⟨by simp [escStage, hcc, Ne.symm hcm], by simp [escStage, hcc, Ne.symm hcm]⟩
    · refine Or.inr ⟨by simp [escStage, hcc], ?_⟩
      intro hmem
      rcases mem_escStage hmem with h | h | h | h
      · exact hcm h.symm
      · exact hcc h.symm
      · exact absurd h (by decide)
      · exact absurd h (by decide)
  rw [e4]
  have e5 : pyReplace ['|'] [e, '|'] (s.flatMap (escStage 3 e)) =
      s.flatMap (escStage 4 e) := by
    refine replace_one_blocks _ _ _ _ s ?_
    intro c _
    by_cases hcp : c = '|'
    · refine Or.inl ⟨by simp [escStage, hcp, Ne.symm hpp], by simp [escStage, hcp, Ne.symm hpp]⟩
    · refine Or.inr ⟨by simp [escStage, hcp], ?_⟩
      intro hmem
      rcases mem_escStage hmem with h | h | h | h
      · exact hpp h.symm
      · exact hcp h.symm
      · exact absurd h (by decide)
      · exact absurd h (by decide)
  rw [e5]
  refine replace_one_blocks _ _ _ _ s ?_
  intro c _
  by_cases hcs : c = ';'
  · refine Or.inl ⟨by simp [escStage, hcs, Ne.symm hsc], by simp [escStage, hcs, Ne.symm hsc]⟩
  · refine Or.inr ⟨by simp [escStage, hcs], ?_⟩
    intro hmem
    rcases mem_escStage hmem with h | h | h | h
    · exact hsc h.symm
    · exact hcs h.symm
    · exact absurd h (by decide)
    · exact absurd h (by decide)

theorem mem_unStage {x e c : Char} {k : Nat} (h : x ∈ unStage k e c) :
    (c = e ∧ x = '\x00') ∨ x = e ∨ x = c ∨ x = 'n' ∨ x = 't' := by
  unfold unStage at h
  split_ifs at h
  all_goals simp_all
  all_goals tauto

theorem unescape_escape_blocks (e : Char) (s : Str)
    (hn : e ≠ '\n') (ht : e ≠ '\t') (hcm : e ≠ ',') (hpp : e ≠ '|') (hsc : e ≠ ';')
    (hln : e ≠ 'n') (hlt : e ≠ 't') (hnul : e ≠ '\x00') (hs : '\x00' ∉ s) :
    handle_escape_characters (s.flatMap (escStage 5 e)) e = s := by
  have sy1 : '\n' ≠ e := Ne.symm hn
  have sy2 : '\t' ≠ e := Ne.symm ht
  have sy3 : ',' ≠ e := Ne.symm hcm
  have sy4 : '|' ≠ e := Ne.symm hpp
  have sy5 : ';' ≠ e := Ne.symm hsc
  have sy6 : 'n' ≠ e := Ne.symm hln
  have sy7 : 't' ≠ e := Ne.symm hlt
  have sy8 : '\x00' ≠ e := Ne.symm hnul
  unfold handle_escape_characters
  dsimp only
  have u1 : pyReplace [e, e] ['\x00'] (s.flatMap (escStage 5 e)) =
      s.flatMap (unStage 1 e) := by
    refine replace_two_blocks _ _ _ _ _ s ?_
    intro c _
    by_cases hce : c = e
    · exact Or.inl ⟨by simp [escStage, hce], by simp [unStage, hce]⟩
    · refine Or.inr ⟨by simp [escStage, unStage, hce, sy1, sy2, sy3, sy4, sy5, sy6, sy7, sy8], ?_⟩
      by_cases hx1 : c = '\n'
      · exact Or.inr ⟨e, 'n', by simp [escStage, hce, hx1, sy1, sy2, sy3, sy4, sy5, sy6, sy7, sy8],
          fun hand => absurd hand.2 (Ne.symm hln), Ne.symm hln⟩
      by_cases hx2 : c = '\t'
      · exact Or.inr ⟨e, 't', by simp [escStage, hce, hx1, hx2, sy1, sy2, sy3, sy4, sy5, sy6, sy7, sy8],
          fun hand => absurd hand.2 (Ne.symm hlt), Ne.symm hlt⟩
      by_cases hx3 : c = ','
      · exact Or.inr ⟨e, ',', by simp [escStage, hce, hx1, hx2, hx3, sy1, sy2, sy3, sy4, sy5, sy6, sy7, sy8],
          fun hand => absurd hand.2 (Ne.symm hcm), Ne.symm hcm⟩
      by_cases hx4 : c = '|'
      · exact Or.inr ⟨e, '|', by simp [escStage, hce, hx1, hx2, hx3, hx4, sy1, sy2, sy3, sy4, sy5, sy6, sy7, sy8],
          fun hand => absurd hand.2 (Ne.symm hpp), Ne.symm hpp⟩
      by_cases hx5 : c = ';'
      · exact Or.inr ⟨e, ';', by simp [escStage, hce, hx1, hx2, hx3, hx4, hx5, sy1, sy2, sy3, sy4, sy5, sy6, sy7, sy8],
          fun hand => absurd hand.2 (Ne.symm hsc), Ne.symm hsc⟩
      exact Or.inl ⟨c, by simp [escStage, hce, hx1, hx2, hx3, hx4, hx5, sy1, sy2, sy3, sy4, sy5, sy6, sy7, sy8], hce⟩
  rw [u1]
  have u2 : pyReplace [e, 'n'] ['\n'] (s.flatMap (unStage 1 e)) =
      s.flatMap (unStage 2 e) := by
    refine replace_two_blocks _ _ _ _ _ s ?_
    intro c _
    by_cases hce : c = e
    · exact Or.inr ⟨by simp [unStage, hce],
        Or.inl ⟨'\x00', by simp [unStage, hce], Ne.symm hnul⟩⟩
    by_cases hx1 : c = '\n'
    · exact Or.inl ⟨by simp [unStage, hce, hx1, sy1, sy2, sy3, sy4, sy5, sy6, sy7, sy8], by simp [unStage, hce, hx1, sy1, sy2, sy3, sy4, sy5, sy6, sy7, sy8]⟩
    by_cases hx2 : c = '\t'
    · exact Or.inr ⟨by simp [unStage, hce, hx1, hx2, sy1, sy2, sy3, sy4, sy5, sy6, sy7, sy8],
        Or.inr ⟨e, 't', by simp [unStage, hce, hx1, hx2, sy1, sy2, sy3, sy4, sy5, sy6, sy7, sy8],
        fun hand => absurd hand.2 (by decide), Ne.symm hlt⟩⟩
    by_cases hx3 : c = ','
    · exact Or.inr ⟨by simp [unStage, hce, hx1, hx2, hx3, sy1, sy2, sy3, sy4, sy5, sy6, sy7, sy8],
        Or.inr ⟨e, ',', by simp [unStage, hce, hx1, hx2, hx3, sy1, sy2, sy3, sy4, sy5, sy6, sy7, sy8],
        fun hand => absurd hand.2 (by decide), Ne.symm hcm⟩⟩
    by_cases hx4 : c = '|'
    · exact Or.inr ⟨by simp [unStage, hce, hx1, hx2, hx3, hx4, sy1, sy2, sy3, sy4, sy5, sy6, sy7, sy8],
        Or.inr ⟨e, '|', by simp [unStage, hce, hx1, hx2, hx3, hx4, sy1, sy2, sy3, sy4, sy5, sy6, sy7, sy8],
        fun hand => absurd hand.2 (by decide), Ne.symm hpp⟩⟩
    by_cases hx5 : c = ';'
    · exact Or.inr ⟨by simp [unStage, hce, hx1, hx2, hx3, hx4, hx5, sy1, sy2, sy3, sy4, sy5, sy6, sy7, sy8],
        Or.inr ⟨e, ';', by simp [unStage, hce, hx1, hx2, hx3, hx4, hx5, sy1, sy2, sy3, sy4, sy5, sy6, sy7, sy8],
        fun hand => absurd hand.2 (by decide), Ne.symm hsc⟩⟩
    exact Or.inr ⟨by simp [unStage, hce, hx1, hx2, hx3, hx4, hx5, sy1, sy2, sy3, sy4, sy5, sy6, sy7, sy8],
      Or.inl ⟨c, by simp [unStage, hce, hx1, hx2, hx3, hx4, hx5, sy1, sy2, sy3, sy4, sy5, sy6, sy7, sy8], hce⟩⟩
  rw [u2]
  have u3 : pyReplace [e, 't'] ['\t'] (s.flatMap (unStage 2 e)) =
      s.flatMap (unStage 3 e) := by
    refine replace_two_blocks _ _ _ _ _ s ?_
    intro c _
    by_cases hce : c = e
    · exact Or.inr ⟨by simp [unStage, hce],
        Or.inl ⟨'\x00', by simp [unStage, hce], Ne.symm hnul⟩⟩
    by_cases hx1 : c = '\n'
    · exact Or.inr ⟨by simp [unStage, hce, hx1, sy1, sy2, sy3, sy4, sy5, sy6, sy7, sy8],
        Or.inl ⟨'\n', by simp [unStage, hce, hx1, sy1, sy2, sy3, sy4, sy5, sy6, sy7, sy8], Ne.symm hn⟩⟩
    by_cases hx2 : c = '\t'
    · exact Or.inl ⟨by simp [unStage, hce, hx1, hx2, sy1, sy2, sy3, sy4, sy5, sy6, sy7, sy8], by simp [unStage, hce, hx1, hx2, sy1, sy2, sy3, sy4, sy5, sy6, sy7, sy8]⟩
    by_cases hx3 : c = ','
    · exact Or.inr ⟨by simp [unStage, hce, hx1, hx2, hx3, sy1, sy2, sy3, sy4, sy5, sy6, sy7, sy8],
        Or.inr ⟨e, ',', by simp [unStage, hce, hx1, hx2, hx3, sy1, sy2, sy3, sy4, sy5, sy6, sy7, sy8],
        fun hand => absurd hand.2 (by decide), Ne.symm hcm⟩⟩
    by_cases hx4 : c = '|'
    · exact Or.inr ⟨by simp [unStage, hce, hx1, hx2, hx3, hx4, sy1, sy2, sy3, sy4, sy5, sy6, sy7, sy8],
        Or.inr ⟨e, '|', by simp [unStage, hce, hx1, hx2, hx3, hx4, sy1, sy2, sy3, sy4, sy5, sy6, sy7, sy8],
        fun hand => absurd hand.2 (by decide), Ne.symm hpp⟩⟩
    by_cases hx5 : c = ';'
    · exact Or.inr ⟨by simp [unStage, hce, hx1, hx2, hx3, hx4, hx5, sy1, sy2, sy3, sy4, sy5, sy6, sy7, sy8],
        Or.inr ⟨e, ';', by simp [unStage, hce, hx1, hx2, hx3, hx4, hx5, sy1, sy2, sy3, sy4, sy5, sy6, sy7, sy8],
        fun hand => absurd hand.2 (by decide), Ne.symm hsc⟩⟩
    exact Or.inr ⟨by simp [unStage, hce, hx1, hx2, hx3, hx4, hx5, sy1, sy2, sy3, sy4, sy5, sy6, sy7, sy8],
      Or.inl ⟨c, by simp [unStage, hce, hx1, hx2, hx3, hx4, hx5, sy1, sy2, sy3, sy4, sy5, sy6, sy7, sy8], hce⟩⟩
  rw [u3]
  have u4 : pyReplace [e, ','] [','] (s.flatMap (unStage 3 e)) =
      s.flatMap (unStage 4 e) := by
    refine replace_two_blocks _ _ _ _ _ s ?_
    intro c _
    by_cases hce : c = e
    · exact Or.inr ⟨by simp [unStage, hce],
        Or.inl ⟨'\x00', by simp [unStage, hce], Ne.symm hnul⟩⟩
    by_cases hx1 : c = '\n'
    · exact Or.inr ⟨by simp [unStage, hce, hx1, sy1, sy2, sy3, sy4, sy5, sy6, sy7, sy8],
        Or.inl ⟨'\n', by simp [unStage, hce, hx1, sy1, sy2, sy3, sy4, sy5, sy6, sy7, sy8], Ne.symm hn⟩⟩
    by_cases hx2 : c = '\t'
    · exact Or.inr ⟨by simp [unStage, hce, hx1, hx2, sy1, sy2, sy3, sy4, sy5, sy6, sy7, sy8],
        Or.inl ⟨'\t', by simp [unStage, hce, hx1, hx2, sy1, sy2, sy3, sy4, sy5, sy6, sy7, sy8], Ne.symm ht⟩⟩
    by_cases hx3 : c = ','
    · exact Or.inl ⟨by simp [unStage, hce, hx1, hx2, hx3, sy1, sy2, sy3, sy4, sy5, sy6, sy7, sy8], by simp [unStage, hce, hx1, hx2, hx3, sy1, sy2, sy3, sy4, sy5, sy6, sy7, sy8]⟩
    by_cases hx4 : c = '|'
    · exact Or.inr ⟨by simp [unStage, hce, hx1, hx2, hx3, hx4, sy1, sy2, sy3, sy4, sy5, sy6, sy7, sy8],
        Or.inr ⟨e, '|', by simp [unStage, hce, hx1, hx2, hx3, hx4, sy1, sy2, sy3, sy4, sy5, sy6, sy7, sy8],
        fun hand => absurd hand.2 (by decide), Ne.symm hpp⟩⟩
    by_cases hx5 : c = ';'
    · exact Or.inr ⟨by simp [unStage, hce, hx1, hx2, hx3, hx4, hx5, sy1, sy2, sy3, sy4, sy5, sy6, sy7, sy8],
        Or.inr ⟨e, ';', by simp [unStage, hce, hx1, hx2, hx3, hx4, hx5, sy1, sy2, sy3, sy4, sy5, sy6, sy7, sy8],
        fun hand => absurd hand.2 (by decide), Ne.symm hsc⟩⟩
    exact Or.inr ⟨by simp [unStage, hce, hx1, hx2, hx3, hx4, hx5, sy1, sy2, sy3, sy4, sy5, sy6, sy7, sy8],
      Or.inl ⟨c, by simp [unStage, hce, hx1, hx2, hx3, hx4, hx5, sy1, sy2, sy3, sy4, sy5, sy6, sy7, sy8], hce⟩⟩
  rw [u4]
  have u5 : pyReplace [e, '|'] ['|'] (s.flatMap (unStage 4 e)) =
      s.flatMap (unStage 5 e) := by
    refine replace_two_blocks _ _ _ _ _ s ?_
    intro c _
    by_cases hce : c = e
    · exact Or.inr ⟨by simp [unStage, hce],
        Or.inl ⟨'\x00', by simp [unStage, hce], Ne.symm hnul⟩⟩
    by_cases hx1 : c = '\n'
    · exact Or.inr ⟨by simp [unStage, hce, hx1, sy1, sy2, sy3, sy4, sy5, sy6, sy7, sy8],
        Or.inl ⟨'\n', by simp [unStage, hce, hx1, sy1, sy2, sy3, sy4, sy5, sy6, sy7, sy8], Ne.symm hn⟩⟩
    by_cases hx2 : c = '\t'
    · exact Or.inr ⟨by simp [unStage, hce, hx1, hx2, sy1, sy2, sy3, sy4, sy5, sy6, sy7, sy8],
        Or.inl ⟨'\t', by simp [unStage, hce, hx1, hx2, sy1, sy2, sy3, sy4, sy5, sy6, sy7, sy8], Ne.symm ht⟩⟩
    by_cases hx3 : c = ','
    · exact Or.inr ⟨by simp [unStage, hce, hx1, hx2, hx3, sy1, sy2, sy3, sy4, sy5, sy6, sy7, sy8],
        Or.inl ⟨',', by simp [unStage, hce, hx1, hx2, hx3, sy1, sy2, sy3, sy4, sy5, sy6, sy7, sy8], Ne.symm hcm⟩⟩
    by_cases hx4 : c = '|'
    · exact Or.inl ⟨by simp [unStage, hce, hx1, hx2, hx3, hx4, sy1, sy2, sy3, sy4, sy5, sy6, sy7, sy8], by simp [unStage, hce, hx1, hx2, hx3, hx4, sy1, sy2, sy3, sy4, sy5, sy6, sy7, sy8]⟩
    by_cases hx5 : c = ';'
    · exact Or.inr ⟨by simp [unStage, hce, hx1, hx2, hx3, hx4, hx5, sy1, sy2, sy3, sy4, sy5, sy6, sy7, sy8],
        Or.inr ⟨e, ';', by simp [unStage, hce, hx1, hx2, hx3, hx4, hx5, sy1, sy2, sy3, sy4, sy5, sy6, sy7, sy8],
        fun hand => absurd hand.2 (by decide), Ne.symm hsc⟩⟩
    exact Or.inr ⟨by simp [unStage, hce, hx1, hx2, hx3, hx4, hx5, sy1, sy2, sy3, sy4, sy5, sy6, sy7, sy8],
      Or.inl ⟨c, by simp [unStage, hce, hx1, hx2, hx3, hx4, hx5, sy1, sy2, sy3, sy4, sy5, sy6, sy7, sy8], hce⟩⟩
  rw [u5]
  have u6 : pyReplace [e, ';'] [';'] (s.flatMap (unStage 5 e)) =
      s.flatMap (unStage 6 e) := by
    refine replace_two_blocks _ _ _ _ _ s ?_
    intro c _
    by_cases hce : c = e
    · exact Or.inr ⟨by simp [unStage, hce],
        Or.inl ⟨'\x00', by simp [unStage, hce], Ne.symm hnul⟩⟩
    by_cases hx1 : c = '\n'
    · exact Or.inr ⟨by simp [unStage, hce, hx1, sy1, sy2, sy3, sy4, sy5, sy6, sy7, sy8],
        Or.inl ⟨'\n', by simp [unStage, hce, hx1, sy1, sy2, sy3, sy4, sy5, sy6, sy7, sy8], Ne.symm hn⟩⟩
    by_cases hx2 : c = '\t'
    · exact Or.inr ⟨by simp [unStage, hce, hx1, hx2, sy1, sy2, sy3, sy4, sy5, sy6, sy7, sy8],
        Or.inl ⟨'\t', by simp [unStage, hce, hx1, hx2, sy1, sy2, sy3, sy4, sy5, sy6, sy7, sy8], Ne.symm ht⟩⟩
    by_cases hx3 : c = ','
    · exact Or.inr ⟨by simp [unStage, hce, hx1, hx2, hx3, sy1, sy2, sy3, sy4, sy5, sy6, sy7, sy8],
        Or.inl ⟨',', by simp [unStage, hce, hx1, hx2, hx3, sy1, sy2, sy3, sy4, sy5, sy6, sy7, sy8], Ne.symm hcm⟩⟩
    by_cases hx4 : c = '|'
    · exact Or.inr ⟨by simp [unStage, hce, hx1, hx2, hx3, hx4, sy1, sy2, sy3, sy4, sy5, sy6, sy7, sy8],
        Or.inl ⟨'|', by simp [unStage, hce, hx1, hx2, hx3, hx4, sy1, sy2, sy3, sy4, sy5, sy6, sy7, sy8], Ne.symm hpp⟩⟩
    by_cases hx5 : c = ';'
    · exact Or.inl ⟨by simp [unStage, hce, hx1, hx2, hx3, hx4, hx5, sy1, sy2, sy3, sy4, sy5, sy6, sy7, sy8], by simp [unStage, hce, hx1, hx2, hx3, hx4, hx5, sy1, sy2, sy3, sy4, sy5, sy6, sy7, sy8]⟩
    exact Or.inr ⟨by simp [unStage, hce, hx1, hx2, hx3, hx4, hx5, sy1, sy2, sy3, sy4, sy5, sy6, sy7, sy8],
      Or.inl ⟨c, by simp [unStage, hce, hx1, hx2, hx3, hx4, hx5, sy1, sy2, sy3, sy4, sy5, sy6, sy7, sy8], hce⟩⟩
  rw [u6]
  have u7 : pyReplace ['\x00'] [e] (s.flatMap (unStage 6 e)) =
      s.flatMap (fun c => [c]) := by
    refine replace_one_blocks _ _ _ _ s ?_
    intro c hcmem
    by_cases hce : c = e
    · exact Or.inl ⟨by simp [unStage, hce], by rw [hce]⟩
    · have hcn : c ≠ '\x00' := fun h => hs (h ▸ hcmem)
      refine Or.inr ⟨?_, ?_⟩
      · by_cases b1 : c = '\n'
        · simp [unStage, hce, b1, sy1, sy2, sy3, sy4, sy5, sy6, sy7, sy8]
        by_cases b2 : c = '\t'
        · simp [unStage, hce, b1, b2, sy1, sy2, sy3, sy4, sy5, sy6, sy7, sy8]
        by_cases b3 : c = ','
        · simp [unStage, hce, b1, b2, b3, sy1, sy2, sy3, sy4, sy5, sy6, sy7, sy8]
        by_cases b4 : c = '|'
        · simp [unStage, hce, b1, b2, b3, b4, sy1, sy2, sy3, sy4, sy5, sy6, sy7, sy8]
        by_cases b5 : c = ';'
        · simp [unStage, hce, b1, b2, b3, b4, b5, sy1, sy2, sy3, sy4, sy5, sy6, sy7, sy8]
        simp [unStage, hce, b1, b2, b3, b4, b5]
      · intro hmem
        rcases mem_unStage hmem with ⟨hc1, _⟩ | h | h | h | h
        · exact hce hc1
        · exact sy8 h
        · exact hcn h.symm
        · exact absurd h (by decide)
        · exact absurd h (by decide)
  rw [u7, flatMap_id_chars]

/-! ## Lemmas about the csv lexer -/

theorem csvLexGo_ne_nil (delim : Char) (esc : Option Char) :
    ∀ (n : Nat) (l : Str) (st : LexSt) (acc : Str), l.length ≤ n →
      csvLexGo delim esc st acc l ≠ [] := by
  intro n
  induction n with
  | zero =>
    intro l st acc hl
    have hl0 : l = [] := List.length_eq_zero.mp (Nat.le_zero.mp hl)
    subst hl0
    cases st <;> simp [csvLexGo]
  | succ n ih =>
    intro l st acc hl
    cases l with
    | nil => cases st <;> simp [csvLexGo]
    | cons c rest =>
      have hr : rest.length ≤ n := by
        simp only [List.length_cons] at hl
        omega
      rw [csvLexGo.eq_def]
      cases st <;> dsimp only
      case stStart =>
        split
        · cases rest with
          | nil => simp
          | cons d rest2 =>
            refine ih rest2 _ _ ?_
            simp only [List.length_cons] at hr
            omega
        · split
          · exact ih rest _ _ hr
          · split
            · simp
            · exact ih rest _ _ hr
      case stField =>
        split
        · cases rest with
          | nil => simp
          | cons d rest2 =>
            refine ih rest2 _ _ ?_
            simp only [List.length_cons] at hr
            omega
        · split
          · simp
          · exact ih rest _ _ hr
      case stQuoted =>
        split
        · cases rest with
          | nil => simp
          | cons d rest2 =>
            refine ih rest2 _ _ ?_
            simp only [List.length_cons] at hr
            omega
        · split
          · exact ih rest _ _ hr
          · exact ih rest _ _ hr
      case stQuoteEnd =>
        split
        · exact ih rest _ _ hr
        · split
          · simp
          · exact ih rest _ _ hr

theorem csvSplitLine_ne_nil (delim : Char) (esc : Option Char) {l : Str}
    (h : l ≠ []) : csvSplitLine delim esc l ≠ [] := by
  cases l with
  | nil => exact absurd rfl h
  | cons c rest =>
    unfold csvSplitLine
    exact csvLexGo_ne_nil delim esc (c :: rest).length _ _ _ le_rfl

/-! ## Round-trip lemmas: plain cells pass the lexer and writer unchanged -/

theorem mem_joinCells {delim : Char} {x : Char} :
    ∀ {cells : List Str}, x ∈ joinCells delim cells →
      x = delim ∨ ∃ c ∈ cells, x ∈ c := by
  intro cells
  induction cells with
  | nil => intro h; simp [joinCells] at h
  | cons c cells ih =>
    intro h
    cases cells with
    | nil =>
      simp only [joinCells] at h
      exact Or.inr ⟨c, List.mem_cons_self _ _, h⟩
    | cons d cells2 =>
      simp only [joinCells, List.mem_append, List.mem_cons] at h
      rcases h with h | h | h
      · exact Or.inr ⟨c, List.mem_cons_self _ _, h⟩
      · exact Or.inl h
      · rcases ih (by simpa [joinCells] using h) with h2 | ⟨c2, hc2, hx2⟩
        · exact Or.inl h2
        · exact Or.inr ⟨c2, List.mem_cons_of_mem _ hc2, hx2⟩

theorem lexGo_base (delim : Char) (esc : Option Char) (st : LexSt) (acc : Str) :
    csvLexGo delim esc st acc [] = [acc] := by
  cases st <;> simp [csvLexGo]

theorem lexGo_field_other {delim c : Char} {esc : Option Char} (rest acc : Str)
    (h1 : ¬(some c = esc)) (h2 : c ≠ delim) :
    csvLexGo delim esc .stField acc (c :: rest) =
      csvLexGo delim esc .stField (acc ++ [c]) rest := by
  conv_lhs => rw [csvLexGo.eq_def]
  simp [h1, h2]

theorem lexGo_field_delim_step {delim : Char} {esc : Option Char} (rest acc : Str)
    (h1 : ¬(some delim = esc)) :
    csvLexGo delim esc .stField acc (delim :: rest) =
      acc :: csvLexGo delim esc .stStart [] rest := by
  conv_lhs => rw [csvLexGo.eq_def]
  simp [h1]

theorem lexGo_start_other {delim c : Char} {esc : Option Char} (rest acc : Str)
    (h1 : ¬(some c = esc)) (h2 : c ≠ '"') (h3 : c ≠ delim) :
    csvLexGo delim esc .stStart acc (c :: rest) =
      csvLexGo delim esc .stField (acc ++ [c]) rest := by
  conv_lhs => rw [csvLexGo.eq_def]
  simp [h1, h2, h3]

theorem lexGo_start_delim_step {delim : Char} {esc : Option Char} (rest acc : Str)
    (h1 : ¬(some delim = esc)) (h2 : delim ≠ '"') :
    csvLexGo delim esc .stStart acc (delim :: rest) =
      acc :: csvLexGo delim esc .stStart [] rest := by
  conv_lhs => rw [csvLexGo.eq_def]
  simp [h1, h2]

theorem lexGo_field_plain (delim : Char) :
    ∀ (x : Str), plainCell delim x → ∀ (acc : Str),
      csvLexGo delim (some '\\') .stField acc x = [acc ++ x] := by
  intro x
  induction x with
  | nil => intro _ acc; rw [lexGo_base]; simp
  | cons c x ih =>
    intro hp acc
    obtain ⟨hcd, hcq, hcb, hcr, hcn, hc0⟩ := hp c (List.mem_cons_self _ _)
    have ihx := ih (fun y hy => hp y (List.mem_cons_of_mem _ hy))
    rw [lexGo_field_other x acc (by simp [hcb]) hcd, ihx]
    simp

theorem lexGo_field_delim (delim : Char) (hdb : delim ≠ '\\') :
    ∀ (x : Str), plainCell delim x → ∀ (acc : Str) (t : Str),
      csvLexGo delim (some '\\') .stField acc (x ++ delim :: t) =
        (acc ++ x) :: csvLexGo delim (some '\\') .stStart [] t := by
  intro x
  induction x with
  | nil =>
    intro _ acc t
    rw [List.nil_append, lexGo_field_delim_step t acc (by simp [hdb])]
    simp
  | cons c x ih =>
    intro hp acc t
    obtain ⟨hcd, hcq, hcb, hcr, hcn, hc0⟩ := hp c (List.mem_cons_self _ _)
    have ihx := ih (fun y hy => hp y (List.mem_cons_of_mem _ hy))
    rw [List.cons_append, lexGo_field_other _ acc (by simp [hcb]) hcd, ihx]
    simp

theorem lexGo_start_last (delim : Char) {x : Str} (hp : plainCell delim x) :
    csvLexGo delim (some '\\') .stStart [] x = [x] := by
  cases x with
  | nil => rw [lexGo_base]
  | cons c x =>
    obtain ⟨hcd, hcq, hcb, hcr, hcn, hc0⟩ := hp c (List.mem_cons_self _ _)
    have hfield := lexGo_field_plain delim x
      (fun y hy => hp y (List.mem_cons_of_mem _ hy)) [c]
    rw [lexGo_start_other x [] (by simp [hcb]) hcq hcd]
    simpa using hfield

theorem lexGo_start_delim (delim : Char) (hdb : delim ≠ '\\') (hdq : delim ≠ '"')
    {x : Str} (hp : plainCell delim x) (t : Str) :
    csvLexGo delim (some '\\') .stStart [] (x ++ delim :: t) =
      x :: csvLexGo delim (some '\\') .stStart [] t := by
  cases x with
  | nil =>
    rw [List.nil_append, lexGo_start_delim_step t [] (by simp [hdb]) hdq]
  | cons c x =>
    obtain ⟨hcd, hcq, hcb, hcr, hcn, hc0⟩ := hp c (List.mem_cons_self _ _)
    have hfield := lexGo_field_delim delim hdb x
      (fun y hy => hp y (List.mem_cons_of_mem _ hy)) [c] t
    rw [List.cons_append, lexGo_start_other _ [] (by simp [hcb]) hcq hcd]
    simpa using hfield

theorem lexGo_start_cells (delim : Char) (hdb : delim ≠ '\\') (hdq : delim ≠ '"') :
    ∀ (cells : List Str), cells ≠ [] → (∀ c ∈ cells, plainCell delim c) →
      csvLexGo delim (some '\\') .stStart [] (joinCells delim cells) = cells := by
  intro cells
  induction cells with
  | nil => intro h _; exact absurd rfl h
  | cons x cells ih =>
    intro _ hp
    cases cells with
    | nil =>
      simp only [joinCells]
      exact lexGo_start_last delim (hp x (List.mem_cons_self _ _))
    | cons y cells2 =>
      simp only [joinCells]
      rw [lexGo_start_delim delim hdb hdq (hp x (List.mem_cons_self _ _))]
      rw [show (joinCells delim (y :: cells2)) =
        joinCells delim (y :: cells2) from rfl]
      rw [ih (by simp) (fun c hc => hp c (List.mem_cons_of_mem _ hc))]

theorem csvSplitLine_cells (delim : Char) (hdb : delim ≠ '\\') (hdq : delim ≠ '"')
    {cells : List Str} (hne : cells ≠ []) (hone : cells ≠ [[]])
    (hp : ∀ c ∈ cells, plainCell delim c) :
    csvSplitLine delim (some '\\') (joinCells delim cells) = cells := by
  cases hj : joinCells delim cells with
  | nil =>
    exfalso
    cases cells with
    | nil => exact hne rfl
    | cons x cells2 =>
      cases cells2 with
      | nil =>
        simp only [joinCells] at hj
        exact hone (by rw [hj])
      | cons y cells3 => simp [joinCells] at hj
  | cons c rest =>
    have := lexGo_start_cells delim hdb hdq cells hne hp
    rw [hj] at this
    unfold csvSplitLine
    exact this

theorem quoteField_plain {delim : Char} {f : Str} (hp : plainCell delim f) :
    quoteField delim f = f := by
  have hq : needsQuote delim f = false := by
    rw [needsQuote, List.any_eq_false]
    intro x hx
    obtain ⟨h1, h2, _, h3, h4, _⟩ := hp x hx
    simp [h1, h2, h3, h4]
  simp [quoteField, hq]

theorem csvWriteRow_plain {delim : Char} {cells : List Str} (hone : cells ≠ [[]])
    (hp : ∀ c ∈ cells, plainCell delim c) :
    csvWriteRow delim cells = joinCells delim cells := by
  rw [csvWriteRow, if_neg hone]
  congr 1
  calc cells.map (quoteField delim)
      = cells.map id := List.map_congr_left (fun c hc => quoteField_plain (hp c hc))
    _ = cells := List.map_id cells

/-! ## Round-trip lemmas: `DictReader` rows of well-formed lines -/

theorem dictInsert_fresh {α β : Type} [DecidableEq α] {d : List (α × β)} {k : α}
    (v : β) (h : ∀ kv ∈ d, kv.1 ≠ k) : dictInsert d k v = d ++ [(k, v)] := by
  have hany : (d.any fun kv => decide (kv.1 = k)) = false := by
    rw [List.any_eq_false]
    intro kv hkv
    simpa using h kv hkv
  simp [dictInsert, hany]

theorem foldl_dictInsert_cells :
    ∀ (l : List (Str × Str)) (acc : List (Option Str × DVal)),
      (l.map Prod.fst).Nodup →
      (∀ kv ∈ l, ∀ av ∈ acc, av.1 ≠ some kv.1) →
      l.foldl (fun d kv => dictInsert d (some kv.1) (DVal.cell (some kv.2))) acc =
        acc ++ l.map (fun kv => (some kv.1, DVal.cell (some kv.2))) := by
  intro l
  induction l with
  | nil => intro acc _ _; simp
  | cons kv l ih =>
    intro acc hnd hfresh
    simp only [List.foldl_cons]
    rw [dictInsert_fresh _ (fun av hav => hfresh kv (List.mem_cons_self _ _) av hav)]
    have hnd2 : (l.map Prod.fst).Nodup := (List.nodup_cons.mp (by simpa using hnd)).2
    have hhead : kv.1 ∉ l.map Prod.fst := (List.nodup_cons.mp (by simpa using hnd)).1
    rw [ih (acc ++ [(some kv.1, DVal.cell (some kv.2))]) hnd2 ?_]
    · simp
    · intro kv2 hkv2 av hav
      rcases List.mem_append.mp hav with hav | hav
      · exact hfresh kv2 (List.mem_cons_of_mem _ hkv2) av hav
      · have : av = (some kv.1, DVal.cell (some kv.2)) := by simpa using hav
        rw [this]
        intro hcontra
        have : kv.1 = kv2.1 := by simpa using hcontra
        exact hhead (this ▸ List.mem_map_of_mem Prod.fst hkv2)

theorem buildDict_zip {hdr row : List Str} (hnd : hdr.Nodup)
    (hlen : row.length = hdr.length) :
    buildDict hdr row =
      (List.zip hdr row).map (fun kv => (some kv.1, DVal.cell (some kv.2))) := by
  unfold buildDict
  dsimp only
  rw [if_neg (by omega), if_neg (by omega)]
  refine foldl_dictInsert_cells _ [] ?_ (by simp)
  rw [List.map_fst_zip hdr row (by omega)]
  exact hnd

theorem parseDictEntries_cells :
    ∀ (l : List (Str × Str)),
      parseDictEntries (l.map (fun kv => (some kv.1, DVal.cell (some kv.2)))) =
        .ok (l.map (fun kv => (kv.1, parseValue (some kv.2)))) := by
  intro l
  induction l with
  | nil => rfl
  | cons kv l ih =>
    simp only [List.map_cons, parseDictEntries, ih]
    rfl

theorem keySetEq_self (a : List Str) : keySetEq a a = true := by
  have h : ∀ x ∈ a, decide (x ∈ a) = true := fun x hx => by simpa using hx
  simp [keySetEq, List.all_eq_true.mpr h]

theorem map_lookup_zip {β : Type} (d : β) :
    ∀ (ks : List Str) (vs : List β), ks.Nodup → ks.length = vs.length →
      ks.map (fun k => ((List.zip ks vs).lookup k).getD d) = vs := by
  intro ks
  induction ks with
  | nil =>
    intro vs _ h
    cases vs with
    | nil => rfl
    | cons v vs => simp at h
  | cons k ks ih =>
    intro vs hnd hlen
    cases vs with
    | nil => simp at hlen
    | cons v vs =>
      simp only [List.zip_cons_cons, List.map_cons]
      have hhead : (((k, v) :: List.zip ks vs).lookup k) = some v := by
        simp [List.lookup]
      rw [hhead]
      have hk : k ∉ ks := (List.nodup_cons.mp hnd).1
      have htail : ks.map (fun k2 => (((k, v) :: List.zip ks vs).lookup k2).getD d) =
          ks.map (fun k2 => ((List.zip ks vs).lookup k2).getD d) := by
        refine List.map_congr_left ?_
        intro k2 hk2
        have hne : (k2 == k) = false := by
          have : k2 ≠ k := fun h => hk (h ▸ hk2)
          simpa using this
        simp [List.lookup, hne]
      rw [htail, ih vs (List.nodup_cons.mp hnd).2 (by simpa using hlen)]
      simp

theorem mapM_except_ok {α β γ : Type} (f : α → Except γ β) (g : α → β) :
    ∀ (l : List α), (∀ x ∈ l, f x = .ok (g x)) → l.mapM f = .ok (l.map g) := by
  intro l
  induction l with
  | nil => intro _; rfl
  | cons x l ih =>
    intro h
    rw [List.mapM_cons, h x (List.mem_cons_self _ _),
      ih (fun y hy => h y (List.mem_cons_of_mem _ hy))]
    rfl

/-- Reading the line written for a row of plain cells gives the row back. -/
theorem csvReadLine_cells {delim : Char} (hdq : delim ≠ '"') (hdb : delim ≠ '\\')
    (hd0 : delim ≠ '\x00') {cells : List Str} (hne : cells ≠ []) (hone : cells ≠ [[]])
    (hp : ∀ c ∈ cells, plainCell delim c) :
    csvReadLine delim (some '\\') (joinCells delim cells) = .ok cells := by
  have hnul : ((joinCells delim cells).any (fun c => c = '\x00')) = false := by
    rw [List.any_eq_false]
    intro x hx
    simp only [decide_eq_true_eq]
    intro hx0
    subst hx0
    rcases mem_joinCells hx with h | ⟨c, hc, hxc⟩
    · exact hd0 h.symm
    · exact ((hp c hc) _ hxc).2.2.2.2.2 rfl
  simp [csvReadLine, hnul, csvSplitLine_cells delim hdb hdq hne hone hp]

/-- The CSV→JSON half of the canonical round trip. -/
theorem csv_side_roundtrip (delim : Char) (hdr : List Str) (rows : List (List Str))
    (hdq : delim ≠ '"') (hdb : delim ≠ '\\') (hd0 : delim ≠ '\x00')
    (hhdr : hdr ≠ []) (hnodup : hdr.Nodup)
    (hnames : ∀ name ∈ hdr, name ≠ [] ∧ plainCell delim name)
    (hrows : ∀ r ∈ rows, r.length = hdr.length ∧ r ≠ [[]] ∧
      ∀ c ∈ r, plainCell delim c ∧ canonicalCell c) :
    convert_csv_to_json (joinCells delim hdr :: rows.map (joinCells delim))
      delim (some '\\') = .ok (rows.map (rowRecord hdr)) := by
  have hhplain : ∀ c ∈ hdr, plainCell delim c := fun c hc => (hnames c hc).2
  have hhone : hdr ≠ [[]] := by
    intro h
    exact (hnames [] (by rw [h]; exact List.mem_cons_self _ _)).1 rfl
  have hreadH : csvReadLine delim (some '\\') (joinCells delim hdr) = .ok hdr :=
    csvReadLine_cells hdq hdb hd0 hhdr hhone hhplain
  have hstep : ∀ r ∈ rows, ∀ acc,
      csvRowStep hdr delim (some '\\') acc (joinCells delim r) =
        .ok (acc ++ [rowRecord hdr r]) := by
    intro r hr acc
    obtain ⟨hlen, hone, hcells⟩ := hrows r hr
    have hplain : ∀ c ∈ r, plainCell delim c := fun c hc => (hcells c hc).1
    have hrne : r ≠ [] := by
      intro h
      rw [h] at hlen
      exact hhdr (List.length_eq_zero.mp hlen.symm)
    have hread : csvReadLine delim (some '\\') (joinCells delim r) = .ok r :=
      csvReadLine_cells hdq hdb hd0 hrne hone hplain
    have hrE : r.isEmpty = false := by
      cases r with
      | nil => exact absurd rfl hrne
      | cons a b => rfl
    unfold csvRowStep
    rw [hread]
    dsimp only [Bind.bind, Except.bind]
    rw [hrE]
    simp only [Bool.false_eq_true, if_false]
    rw [buildDict_zip hnodup hlen, parseDictEntries_cells]
    rfl
  have hfold : ∀ (rs : List (List Str)), (∀ r ∈ rs, r ∈ rows) → ∀ acc,
      List.foldlM (csvRowStep hdr delim (some '\\')) acc (rs.map (joinCells delim)) =
        .ok (acc ++ rs.map (rowRecord hdr)) := by
    intro rs
    induction rs with
    | nil =>
      intro _ acc
      simp only [List.map_nil, List.foldlM_nil, List.append_nil]
      rfl
    | cons r rs ih =>
      intro hsub acc
      rw [List.map_cons, List.foldlM_cons, hstep r (hsub r (List.mem_cons_self _ _)) acc]
      dsimp only [Bind.bind, Except.bind]
      rw [ih (fun x hx => hsub x (List.mem_cons_of_mem _ hx))]
      simp
  have hhE : hdr.isEmpty = false := by
    cases hdr with
    | nil => exact absurd rfl hhdr
    | cons a b => rfl
  have hbody : csvToJsonBody (joinCells delim hdr :: rows.map (joinCells delim))
      delim (some '\\') = .ok (rows.map (rowRecord hdr)) := by
    have h1 : csvToJsonBody (joinCells delim hdr :: rows.map (joinCells delim))
        delim (some '\\') =
        (csvReadLine delim (some '\\') (joinCells delim hdr) >>= fun h =>
          if h.isEmpty then .error (.valueErr "CSV file has no headers".data)
          else (rows.map (joinCells delim)).foldlM (csvRowStep h delim (some '\\')) []) :=
      rfl
    rw [h1, hreadH]
    dsimp only [Bind.bind, Except.bind]
    rw [hhE]
    simp only [Bool.false_eq_true, if_false]
    rw [hfold rows (fun r hr => hr) []]
    rfl
  unfold convert_csv_to_json
  rw [hbody]
  rfl

/-- The JSON→CSV half of the canonical round trip. -/
theorem json_side_roundtrip (delim : Char) (hdr : List Str) (rows : List (List Str))
    (hnodup : hdr.Nodup)
    (hnames : ∀ name ∈ hdr, name ≠ [] ∧ plainCell delim name)
    (hrows0 : rows ≠ [])
    (hrows : ∀ r ∈ rows, r.length = hdr.length ∧ r ≠ [[]] ∧
      ∀ c ∈ r, plainCell delim c ∧ canonicalCell c) :
    convert_json_to_csv (.top (datasetToJson (rows.map (rowRecord hdr)))) delim none =
      .ok (joinCells delim hdr :: rows.map (joinCells delim)) := by
  have hhplain : ∀ c ∈ hdr, plainCell delim c := fun c hc => (hnames c hc).2
  have hhone : hdr ≠ [[]] := by
    intro h
    exact (hnames [] (by rw [h]; exact List.mem_cons_self _ _)).1 rfl
  have hkeys : ∀ r ∈ rows, (rowRecord hdr r).map Prod.fst = hdr := by
    intro r hr
    unfold rowRecord
    rw [List.map_map]
    have h2 : (Prod.fst ∘ fun kv : Str × Str => (kv.1, parseValue (some kv.2))) =
        Prod.fst := rfl
    rw [h2, List.map_fst_zip hdr r (by have := (hrows r hr).1; omega)]
  have hwrite : ∀ r ∈ rows,
      writeRecord delim hdr (.obj (rowRecord hdr r)) = .ok (joinCells delim r) := by
    intro r hr
    obtain ⟨hlen, hone, hcells⟩ := hrows r hr
    have hplain : ∀ c ∈ r, plainCell delim c := fun c hc => (hcells c hc).1
    have hall : ((rowRecord hdr r).all (fun kv => decide (kv.1 ∈ hdr))) = true := by
      rw [List.all_eq_true]
      intro kv hkv
      simp only [decide_eq_true_eq]
      have hm : kv.1 ∈ (rowRecord hdr r).map Prod.fst := List.mem_map_of_mem Prod.fst hkv
      rw [hkeys r hr] at hm
      exact hm
    have hzipmap : rowRecord hdr r =
        List.zip hdr (r.map (fun c => parseValue (some c))) := by
      unfold rowRecord
      rw [List.zip_map_right]
      exact List.map_congr_left (fun kv _ => rfl)
    have hvals : hdr.map (fun k => ((rowRecord hdr r).lookup k).getD (.str [])) =
        r.map (fun c => parseValue (some c)) := by
      rw [hzipmap]
      exact map_lookup_zip _ hdr _ hnodup (by simp [hlen])
    have hcellsEq : (r.map (fun c => parseValue (some c))).map csvCellText = r := by
      rw [List.map_map]
      have hcc : ∀ c ∈ r, (csvCellText ∘ fun c => parseValue (some c)) c = id c :=
        fun c hc => (hcells c hc).2
      rw [List.map_congr_left hcc, List.map_id]
    have h1 : writeRecord delim hdr (.obj (rowRecord hdr r)) =
        (dictToList hdr (rowRecord hdr r) >>= fun vals =>
          pure (csvWriteRow delim (vals.map csvCellText))) := rfl
    rw [h1]
    unfold dictToList
    rw [if_pos hall]
    dsimp only [Bind.bind, Except.bind]
    rw [hvals, hcellsEq, csvWriteRow_plain hone hplain]
    rfl
  have hcheck : ∀ (rs : List (List Str)), (∀ r ∈ rs, r ∈ rows) →
      checkItems hdr (rs.map (fun r => JsonVal.obj (rowRecord hdr r))) = .ok () := by
    intro rs
    induction rs with
    | nil => intro _; rfl
    | cons r rs ih =>
      intro hsub
      have h1 : checkItems hdr ((r :: rs).map (fun r => JsonVal.obj (rowRecord hdr r))) =
          (keysOf (JsonVal.obj (rowRecord hdr r)) >>= fun ks =>
            if keySetEq ks hdr then
              checkItems hdr (rs.map (fun r => JsonVal.obj (rowRecord hdr r)))
            else .error (.valueErr
              "All objects in JSON array must have the same fields".data)) := rfl
      rw [h1]
      have hk : keysOf (JsonVal.obj (rowRecord hdr r)) = .ok hdr := by
        show Except.ok ((rowRecord hdr r).map Prod.fst) = Except.ok hdr
        rw [hkeys r (hsub r (List.mem_cons_self _ _))]
      rw [hk]
      dsimp only [Bind.bind, Except.bind]
      rw [keySetEq_self hdr]
      simp only [if_true]
      exact ih (fun x hx => hsub x (List.mem_cons_of_mem _ hx))
  have hmapM : ∀ (rs : List (List Str)), (∀ r ∈ rs, r ∈ rows) →
      (rs.map (fun r => JsonVal.obj (rowRecord hdr r))).mapM (writeRecord delim hdr) =
        .ok (rs.map (joinCells delim)) := by
    intro rs
    induction rs with
    | nil => intro _; rfl
    | cons r rs ih =>
      intro hsub
      rw [List.map_cons, List.mapM_cons, hwrite r (hsub r (List.mem_cons_self _ _)),
        List.map_cons, ih (fun x hx => hsub x (List.mem_cons_of_mem _ hx))]
      rfl
  cases rows with
  | nil => exact absurd rfl hrows0
  | cons r0 rows2 =>
    have hsub0 : ∀ x ∈ rows2, x ∈ r0 :: rows2 := fun x hx => List.mem_cons_of_mem _ hx
    have hbridge : ((rows2.map (rowRecord hdr)).map JsonVal.obj) =
        rows2.map (fun r => JsonVal.obj (rowRecord hdr r)) := by
      rw [List.map_map]
      rfl
    have h1 : jsonToCsvBody (.top (datasetToJson ((r0 :: rows2).map (rowRecord hdr))))
        delim none =
        (keysOf (JsonVal.obj (rowRecord hdr r0)) >>= fun fieldnames =>
          checkItems fieldnames ((rows2.map (rowRecord hdr)).map JsonVal.obj) >>=
            fun _ =>
          ((JsonVal.obj (rowRecord hdr r0) ::
              (rows2.map (rowRecord hdr)).map JsonVal.obj).mapM
            (writeRecord delim fieldnames)) >>= fun rws =>
          pure (csvWriteRow delim fieldnames :: rws)) := rfl
    have hk0 : keysOf (JsonVal.obj (rowRecord hdr r0)) = .ok hdr := by
      show Except.ok ((rowRecord hdr r0).map Prod.fst) = Except.ok hdr
      rw [hkeys r0 (List.mem_cons_self _ _)]
    unfold convert_json_to_csv
    rw [h1, hk0]
    dsimp only [Bind.bind, Except.bind]
    rw [hbridge, hcheck rows2 hsub0]
    have hlist : (JsonVal.obj (rowRecord hdr r0) ::
        rows2.map (fun r => JsonVal.obj (rowRecord hdr r))) =
        (r0 :: rows2).map (fun r => JsonVal.obj (rowRecord hdr r)) := by
      rw [List.map_cons]
    rw [hlist, hmapM (r0 :: rows2) (fun x hx => hx),
      csvWriteRow_plain hhone hhplain]
    rfl

/-! ## Claim theorems -/

/-- C1: on a JSON array of objects in which a later element's key set
differs from the first element's, `convert_json_to_csv` does not surface a
Validation (`ValueError`) failure as the claim states: its internal
`raise ValueError("All objects in JSON array must have the same fields")`
is caught by the final `except Exception` clause and re-raised as
`IOError`.  This theorem evaluates the model at the failing input
`[{"a": 1}, {"b": 2}]` (any delimiter and escape character). -/
theorem c1_hetero_keys_surface_io_error (delim : Char) (esc : Option Char) :
    convert_json_to_csv
      (.top (.arr [.obj [("a".data, .int 1)], .obj [("b".data, .int 2)]])) delim esc =
    .error (.ioError
      "Error converting JSON to CSV: All objects in JSON array must have the same fields".data) :=
  rfl

/-- C2: value coercion is exactly the claimed rule — trim, keep blank cells
as the empty string, parse an optional-minus-then-decimal-digits token as an
integer, otherwise parse as float when the float parser accepts, otherwise
keep the trimmed string — and it is a pure function with the claimed values
on `"42"`, `"-3.14"`, `""`, `"abc"` and `"0xFF"`. -/
theorem c2_value_coercion :
    (∀ s : Str, parseValue (some s) = coercionClaim s) ∧
    parseValue (some "42".data) = .int 42 ∧
    parseValue (some "-3.14".data) = .float (.finite ⟨-157, 50⟩) ∧
    parseValue (some "".data) = .str [] ∧
    parseValue (some "abc".data) = .str "abc".data ∧
    parseValue (some "0xFF".data) = .str "0xFF".data :=
  ⟨parseValue_eq_coercionClaim, rfl, rfl, rfl, rfl, rfl⟩

/-- C5: on a CSV input with zero header columns — the empty file (no lines)
or a file whose first line is blank — `convert_csv_to_json` fails, but the
internal `raise ValueError("CSV file has no headers")` is caught by the
final `except Exception` clause and surfaces as `IOError`, not as the
Validation error the claim states.  The message does mention "headers". -/
theorem c5_no_headers_surface_io_error (delim : Char) (esc : Option Char) :
    convert_csv_to_json [] delim esc =
      .error (.ioError "Error converting CSV to JSON: CSV file has no headers".data) ∧
    convert_csv_to_json [[]] delim esc =
      .error (.ioError "Error converting CSV to JSON: CSV file has no headers".data) :=
  ⟨rfl, rfl⟩

/-- C6: a data row with a cell count inconsistent with the header does not
yield a Validation error.  A row with more cells than the header crashes
`_parse_value` on the restkey's list of extras (`AttributeError`), which the
catch-all clause surfaces as `IOError`; a row with fewer cells silently
succeeds, padding the missing fields with `null`.  The repository's own
test (`test_error_handling` on `"name,age\nAlice,25,extra"`) expects a
`ValueError` mentioning "format" here. -/
theorem c6_inconsistent_columns_not_validation :
    convert_csv_to_json ["name,age".data, "Alice,25,extra".data] ',' (some '\\') =
      .error (.ioError
        "Error converting CSV to JSON: 'list' object has no attribute 'strip'".data) ∧
    convert_csv_to_json ["a,b".data, "1".data] ',' (some '\\') =
      .ok [[("a".data, .int 1), ("b".data, .null)]] :=
  ⟨rfl, rfl⟩

/-- C7: a nested object value is written via Python `str()` — that is,
`repr` with single quotes — and not as its compact JSON text: the record
`{"k": {"a": "b"}}` produces the cell `{'a': 'b'}`, while the compact JSON
text of the same value (which the claim and the repository's own
`test_complex_data_types` expect) is `{"a": "b"}`. -/
theorem c7_nested_object_rendered_as_repr :
    convert_json_to_csv
      (.top (.arr [.obj [("k".data, .obj [("a".data, .str "b".data)])]])) ',' none =
      .ok ["k".data, "\x7b'a': 'b'\x7d".data] ∧
    jsonDumpVal (.obj [("a".data, .str "b".data)]) = "\x7b\"a\": \"b\"\x7d".data ∧
    "\x7b'a': 'b'\x7d".data ≠ "\x7b\"a\": \"b\"\x7d".data :=
  ⟨rfl, rfl, by decide⟩

/-- C9: value coercion is total and never signals failure: for every input
string the result is a string, an integer or a float — including
hexadecimal literals, underscore-separated digit groups (accepted by the
float parser) and Unicode digit strings such as `"²"` that pass the
`isdigit` gate but make `int()` raise the `ValueError` the code swallows. -/
theorem c9_coercion_total :
    (∀ s : Str, isScalarSIF (parseValue (some s)) = true) ∧
    parseValue (some "²".data) = .str "²".data ∧
    parseValue (some "0b1010".data) = .str "0b1010".data ∧
    parseValue (some "1_000".data) = .float (.finite ⟨1000, 1⟩) :=
  ⟨parseValue_scalar, rfl, rfl, rfl⟩

/-- C4: empty datasets convert trivially.  `convert_json_to_csv` on the
JSON array `[]` writes a zero-byte output file (no lines, hence no header)
and returns successfully, for any delimiter and escape character; and
`convert_csv_to_json` on a CSV file consisting of a single (nonempty,
NUL-free) header line and no data rows succeeds with the empty dataset,
whose serialization `json.dump` writes as the text `[]`. -/
theorem c4_empty_dataset (delim d2 : Char) (esc e2 : Option Char) (hdr : Str)
    (hne : hdr ≠ []) (hnul : '\x00' ∉ hdr) :
    convert_json_to_csv (.top (.arr [])) delim esc = .ok [] ∧
    convert_csv_to_json [hdr] d2 e2 = .ok [] := by
  refine ⟨rfl, ?_⟩
  have hany : hdr.any (fun c => c = '\x00') = false := by
    rw [List.any_eq_false]
    intro x hx
    simp only [decide_eq_true_eq]
    intro heq
    exact hnul (heq ▸ hx)
  have hnil := csvSplitLine_ne_nil d2 e2 hne
  unfold convert_csv_to_json csvToJsonBody csvReadLine
  simp [hany]
  dsimp only [Bind.bind, Except.bind]
  rw [if_neg hnil]
  rfl

/-- C4 (witness): the empty JSON array and the header-only file `a,b` with
the default configuration. -/
theorem c4_empty_dataset_witness :
    convert_json_to_csv (.top (.arr [])) ',' none = .ok [] ∧
    convert_csv_to_json ["a,b".data] ',' (some '\\') = .ok [] :=
  c4_empty_dataset ',' ',' none (some '\\') "a,b".data (by decide) (by decide)

/-- C10: on every failure — validation failures included — the output file
is never opened: in both converters every `with open(..., 'w')` statement
lies beyond the input read and all validation, so a failing call's event
trace contains no output-open event. -/
theorem c10_no_output_on_failure (lines : List Str) (src : JsonSrc)
    (d1 d2 : Char) (e1 e2 : Option Char) :
    (∀ err, convert_csv_to_json lines d1 e1 = .error err →
      Ev.openOutput ∉ csvToJsonEvents lines d1 e1) ∧
    (∀ err, convert_json_to_csv src d2 e2 = .error err →
      Ev.openOutput ∉ jsonToCsvEvents src d2 e2) := by
  constructor
  · intro err h
    unfold csvToJsonEvents
    cases hb : csvToJsonBody lines d1 e1 with
    | error e => simp
    | ok v =>
      exfalso
      unfold convert_csv_to_json at h
      rw [hb] at h
      simp [Except.mapError] at h
  · intro err h
    unfold jsonToCsvEvents
    cases hb : jsonToCsvBody src d2 e2 with
    | error e => simp
    | ok v =>
      exfalso
      unfold convert_json_to_csv at h
      rw [hb] at h
      simp [Except.mapError] at h

/-- C10 (witness): a failing CSV call (empty file) and a failing JSON call
(wrong top-level type) both have output-open-free traces. -/
theorem c10_no_output_on_failure_witness :
    Ev.openOutput ∉ csvToJsonEvents [] ',' (some '\\') ∧
    Ev.openOutput ∉ jsonToCsvEvents (.top (.int 0)) ',' none :=
  ⟨(c10_no_output_on_failure [] (.top (.int 0)) ',' ',' (some '\\') none).1 _ rfl,
   (c10_no_output_on_failure [] (.top (.int 0)) ',' ',' (some '\\') none).2 _ rfl⟩

/-- C8 (counterexample): escape/unescape is not an inverse pair on every
input: the one-character string NUL (`"\x00"`) is left unchanged by
`escape_characters`, but `handle_escape_characters` confuses it with its
own internal placeholder and turns it into the escape character. -/
theorem c8_escape_unescape_counterexample :
    handle_escape_characters (escape_characters ['\x00'] '\\') '\\' = ['\\'] ∧
    (['\\'] : Str) ≠ ['\x00'] := by
  constructor
  · have hesc : escape_characters ['\x00'] '\\' = ['\x00'] := by
      rw [escape_characters_blocks '\\' ['\x00'] (by decide) (by decide) (by decide)
        (by decide) (by decide)]
      rfl
    rw [hesc]
    unfold handle_escape_characters
    dsimp only
    simp only [pyReplace_two, pyReplace_one, go2_singleton, go1_match, pyReplaceGo_nil]
    rfl
  · decide

/-- C8 (amended): for an escape character outside the replaced characters,
their mnemonic letters and NUL (the default backslash qualifies), and for
input strings that do not contain NUL (the placeholder
`handle_escape_characters` uses internally), `escape_characters` doubles
the escape character and then replaces newline, tab, comma, pipe and
semicolon by the escape character plus mnemonic, and
`handle_escape_characters` is its exact inverse. -/
theorem c8_escape_unescape_amended (s : Str) (e : Char)
    (he : e ∉ (['\n', '\t', ',', '|', ';', 'n', 't', '\x00'] : Str))
    (hs : '\x00' ∉ s) :
    escape_characters s e = s.flatMap (encB e) ∧
    handle_escape_characters (escape_characters s e) e = s := by
  simp only [List.mem_cons, List.not_mem_nil, or_false, not_or] at he
  obtain ⟨h1, h2, h3, h4, h5, h6, h7, h8⟩ := he
  have hesc := escape_characters_blocks e s h1 h2 h3 h4 h5
  have hfun : escStage 5 e = encB e := funext fun c => by simp [escStage, encB]
  refine ⟨by rw [hesc, hfun], ?_⟩
  rw [hesc]
  exact unescape_escape_blocks e s h1 h2 h3 h4 h5 h6 h7 h8 hs

/-- C8 (witness): the round trip at the concrete string `a,b\nc\d` with the
default escape character backslash. -/
theorem c8_escape_unescape_amended_witness :
    handle_escape_characters (escape_characters "a,b\nc\\d".data '\\') '\\' =
      "a,b\nc\\d".data :=
  (c8_escape_unescape_amended "a,b\nc\\d".data '\\' (by decide) (by decide)).2

/-- C3 (amended): the CSV→JSON→CSV round trip reproduces the original file
exactly for well-formed canonical files: a header line of distinct nonempty
plain names, at least one data row, every row with exactly as many cells as
the header, no cell containing the delimiter, a quote, a backslash, CR, LF
or NUL, and every data cell a fixed point of coerce-then-render (floats in
shortest repr form, strings unpadded).  Both conversions use the same
delimiter and their default escape configuration. -/
theorem c3_roundtrip_canonical (delim : Char) (hdr : List Str) (rows : List (List Str))
    (hdq : delim ≠ '"') (hdb : delim ≠ '\\') (hd0 : delim ≠ '\x00')
    (hhdr : hdr ≠ []) (hnodup : hdr.Nodup)
    (hnames : ∀ name ∈ hdr, name ≠ [] ∧ plainCell delim name)
    (hrows0 : rows ≠ [])
    (hrows : ∀ r ∈ rows, r.length = hdr.length ∧ r ≠ [[]] ∧
      ∀ c ∈ r, plainCell delim c ∧ canonicalCell c) :
    ∃ ds,
      convert_csv_to_json (joinCells delim hdr :: rows.map (joinCells delim))
        delim (some '\\') = .ok ds ∧
      convert_json_to_csv (.top (datasetToJson ds)) delim none =
        .ok (joinCells delim hdr :: rows.map (joinCells delim)) :=
  ⟨rows.map (rowRecord hdr),
    csv_side_roundtrip delim hdr rows hdq hdb hd0 hhdr hnodup hnames hrows,
    json_side_roundtrip delim hdr rows hnodup hnames hrows0 hrows⟩

/-- C3 (witness): the round trip at the concrete file `a,b` / `1,x` with the
default configuration. -/
theorem c3_roundtrip_canonical_witness :
    ∃ ds,
      convert_csv_to_json ["a,b".data, "1,x".data] ',' (some '\\') = .ok ds ∧
      convert_json_to_csv (.top (datasetToJson ds)) ',' none =
        .ok ["a,b".data, "1,x".data] :=
  c3_roundtrip_canonical ',' ["a".data, "b".data] [["1".data, "x".data]]
    (by decide) (by decide) (by decide) (by decide) (by decide)
    (by simp only [plainCell]; decide) (by decide)
    (by simp only [plainCell, canonicalCell]; decide)

/-- C3 (counterexample): CSV→JSON→CSV does not reproduce the original text
for the single-column file `a` / `1.50`: the cell `1.50` coerces to the
float 3/2, which is rendered back as `1.5`. -/
theorem c3_roundtrip_counterexample :
    convert_csv_to_json ["a".data, "1.50".data] ',' (some '\\') =
      .ok [[("a".data, .float (.finite ⟨3, 2⟩))]] ∧
    convert_json_to_csv (.top (datasetToJson [[("a".data, .float (.finite ⟨3, 2⟩))]]))
      ',' none =
      .ok ["a".data, "1.5".data] ∧
    ["a".data, "1.5".data] ≠ ["a".data, "1.50".data] :=
  ⟨rfl, rfl, by decide⟩

end PyModel
